import Mathlib

/-!
Verification of the RTuinOS kernel core (rtos.c) against its natural-language
specification.  The kernel's data model and operations are embedded shallowly:
machine integers become Nat with explicit reduction modulo a power of two where
the C code relies on wrap-around, the global task table and the due/suspended
arrays become lists, and each kernel routine becomes a pure state transformer.
-/

namespace RTuinOS

/-- Modelled from the spec: the reserved absolute-timer event bit of the 16-bit
event vector (rtos.h is not part of the sources; the spec reserves the bits
ABS_TIMER, DELAY_TIMER, ISR_USER_00, ISR_USER_01 of the 16-bit vector). -/
def RTOS_EVT_ABSOLUTE_TIMER : Nat := 0x4000

/-- Modelled from the spec: the reserved delay-timer event bit. -/
def RTOS_EVT_DELAY_TIMER : Nat := 0x8000

/-- The combined timer-event mask, as defined locally in checkForTaskActivation. -/
def TIMER_EVT_MASK : Nat := RTOS_EVT_ABSOLUTE_TIMER ||| RTOS_EVT_DELAY_TIMER

/-- Modelled from the spec: the width in bits of the cyclic system-time type
uintTime_t (configurable as 8 or 16 bits; 8 is the default configuration). -/
def timeW : Nat := 8

/-- The task descriptor task_t of rtos.c, keeping the fields the kernel logic
reads and writes at runtime (stack bookkeeping fields are not modelled). -/
structure Task where
  prioClass : Nat
  timeDueAt : Nat
  timeRoundRobin : Nat
  cntDelay : Nat
  cntRoundRobin : Nat
  postedEventVec : Nat
  eventMask : Nat
  waitForAnyEvent : Bool
  cntOverrun : Nat
deriving DecidableEq, Repr

instance : Inhabited Task :=
  ⟨{ prioClass := 0, timeDueAt := 0, timeRoundRobin := 0, cntDelay := 0
   , cntRoundRobin := 0, postedEventVec := 0, eventMask := 0
   , waitForAnyEvent := false, cntOverrun := 0 }⟩

/-- The release test applied to each suspended task by checkForTaskActivation
(rtos.c, the condition guarding the reordering of a suspended task into the
due lists).  The complement of the 16-bit timer mask is written explicitly as
an XOR against 0xFFFF because the operands are 16-bit values. -/
def isReleased (t : Task) : Bool :=
  (t.waitForAnyEvent && t.postedEventVec != 0)
  || (!t.waitForAnyEvent
      && (((t.postedEventVec ^^^ t.eventMask) &&& (0xFFFF ^^^ TIMER_EVT_MASK)) == 0
          || (t.postedEventVec &&& t.eventMask &&& TIMER_EVT_MASK) != 0))

/-- storeResumeCondition of rtos.c, parameterised by the width w of
uintTime_t and by the current system time.  The signed-comparison overrun
test of the source, a two's-complement cast of the unsigned cyclic
difference, is expressed on the unsigned residue: the residue d is
non-positive as a signed value iff d = 0 or d has the sign bit set. -/
def storeResumeCondition (w time : Nat) (t : Task) (eventMask : Nat)
    (all : Bool) (timeout : Nat) : Task :=
  let t1 :=
    if eventMask &&& RTOS_EVT_ABSOLUTE_TIMER ≠ 0 then
      let timeDueAt := (t.timeDueAt + timeout) % 2 ^ w
      let diff := (timeDueAt + (2 ^ w - time % 2 ^ w)) % 2 ^ w
      if diff = 0 ∨ 2 ^ (w - 1) ≤ diff then
        { t with cntOverrun := if t.cntOverrun < 255 then t.cntOverrun + 1 else t.cntOverrun
               , timeDueAt := (time + 1) % 2 ^ w }
      else
        { t with timeDueAt := timeDueAt }
    else
      let timeout2 := if (timeout + 1) % 2 ^ w ≠ 0 then (timeout + 1) % 2 ^ w else timeout
      { t with cntDelay := timeout2 }
  { t1 with eventMask := eventMask, waitForAnyEvent := !all }

/-- Two's-complement reading of a w-bit residue, used by the specification to
describe the overrun test of storeResumeCondition. -/
def toSigned (w d : Nat) : Int :=
  if d < 2 ^ (w - 1) then (d : Int) else (d : Int) - (2 ^ w : Nat)

/-- The unsigned cyclic difference a - b in w bits (both operands reduced). -/
def cyclicSub (w a b : Nat) : Nat := (a + (2 ^ w - b % 2 ^ w)) % 2 ^ w

theorem toSigned_nonpos_iff (w d : Nat) (hw : 0 < w) (hd : d < 2 ^ w) :
    toSigned w d ≤ 0 ↔ d = 0 ∨ 2 ^ (w - 1) ≤ d := by
  unfold toSigned
  by_cases h : d < 2 ^ (w - 1)
  · simp only [if_pos h]
    constructor
    · intro hle
      left
      exact_mod_cast le_antisymm (by exact_mod_cast hle) (Int.ofNat_nonneg d)
    · rintro (rfl | hge)
      · simp
      · omega
  · simp only [if_neg h]
    constructor
    · intro _; right; omega
    · intro _
      have : (d : Int) < (2 ^ w : Nat) := by exact_mod_cast hd
      omega

/-! ## Kernel state and operations -/

/-- The kernel's global data: _time, _taskAry, _pDueTaskAryAry together with
_noDueTasksAry (a list per priority class), _pSuspendedTaskAry together with
_noSuspendedTasks, _pActiveTask and _pSuspendedTask (as task indices). -/
structure KState where
  time : Nat
  tasks : List Task
  due : List (List Nat)
  suspended : List Nat
  active : Nat
  suspendedFrom : Nat
deriving DecidableEq, Repr

/-- Dereference a task pointer: the descriptor stored at a given index. -/
def taskAt (tasks : List Task) (id : Nat) : Task := tasks.getD id default

def getTask (s : KState) (id : Nat) : Task := taskAt s.tasks id

/-- The due list of one priority class. -/
def dueAt (s : KState) (c : Nat) : List Nat := s.due.getD c []

/-- All due-list entries of all priority classes. -/
def dueAll (s : KState) : List Nat := s.due.flatten

/-- The field updates applied to a task released by checkForTaskActivation:
the event mask is cleared and the round-robin counter is reloaded. -/
def releaseUpd (t : Task) : Task :=
  { t with eventMask := 0, cntRoundRobin := t.timeRoundRobin }

/-- The while loop of checkForTaskActivation over _pSuspendedTaskAry: each
released task is appended to the due list of its priority class and compacted
out of the suspended array (the loop index does not advance on a release, so
the walk continues with the remaining elements); the Boolean result records
whether any task was released. -/
def scanRelease (tasks : List Task) (due : List (List Nat)) :
    List Nat → List Task × List (List Nat) × List Nat × Bool
  | [] => (tasks, due, [], false)
  | id :: rest =>
    let pT := taskAt tasks id
    if isReleased pT then
      let tasks1 := tasks.set id (releaseUpd pT)
      let due1 := due.set pT.prioClass (due.getD pT.prioClass [] ++ [id])
      let r := scanRelease tasks1 due1 rest
      (r.1, r.2.1, r.2.2.1, true)
    else
      let r := scanRelease tasks due rest
      (r.1, r.2.1, id :: r.2.2.1, r.2.2.2)

/-- The descending scan over the priority classes (for idxPrio from the top
class down to 0): the head of the highest non-empty due list, if any. -/
def findDueHead (due : List (List Nat)) : Nat → Option Nat
  | 0 => none
  | c + 1 =>
    match (due.getD c []).head? with
    | some id => some id
    | none => findDueHead due c

/-- checkForTaskActivation of rtos.c (round-robin support compiled in, so the
could-be-new-active-task flag is a parameter).  After the release scan, if the
flag is set, the first entry of the highest non-empty priority class becomes
the tentative new active task and the outgoing active task is recorded in
_pSuspendedTask; true is returned only if the candidate differs from the
outgoing active task. -/
def checkForTaskActivation (isNewActiveTask : Bool) (s : KState) : Bool × KState :=
  let r := scanRelease s.tasks s.due s.suspended
  let isNew := isNewActiveTask || r.2.2.2
  let s1 : KState := { s with tasks := r.1, due := r.2.1, suspended := r.2.2.1 }
  if isNew then
    match findDueHead s1.due s1.due.length with
    | some id => (decide (id ≠ s.active), { s1 with suspendedFrom := s.active, active := id })
    | none => (true, s1)
  else
    (false, s1)

/-- The timer phase of onTimerTic for one suspended task: post the
absolute-timer event if the (already incremented) time equals timeDueAt, and
serve the delay counter, posting the delay-timer event when it reaches zero. -/
def tickTimersTask (time : Nat) (t : Task) : Task :=
  let t1 :=
    if time = t.timeDueAt then
      { t with postedEventVec := t.postedEventVec ||| (RTOS_EVT_ABSOLUTE_TIMER &&& t.eventMask) }
    else t
  if 0 < t1.cntDelay then
    let c := t1.cntDelay - 1
    if c = 0 then
      { t1 with cntDelay := c
              , postedEventVec := t1.postedEventVec ||| (RTOS_EVT_DELAY_TIMER &&& t1.eventMask) }
    else
      { t1 with cntDelay := c }
  else t1

/-- Apply a per-task update to every task listed, in order (the shape of the
for loops of onTimerTic and setEvent over _pSuspendedTaskAry). -/
def updEach (f : Task → Task) (tasks : List Task) : List Nat → List Task
  | [] => tasks
  | id :: rest => updEach f (tasks.set id (f (taskAt tasks id))) rest

def tickTimers (time : Nat) (tasks : List Task) (susp : List Nat) : List Task :=
  updEach (tickTimersTask time) tasks susp

/-- The round-robin block of onTimerTic: if the active task runs on a time
slice, decrement its counter; when the counter elapses, reload it and, if
more than one task is due in the active task's priority class, roll that due
list by one position, putting the active task at its tail and forcing the
search for a new active task. -/
def roundRobinPhase (s : KState) : Bool × KState :=
  let a := getTask s s.active
  if 0 < a.cntRoundRobin then
    let c := a.cntRoundRobin - 1
    if c = 0 then
      let tasks1 := s.tasks.set s.active { a with cntRoundRobin := a.timeRoundRobin }
      let dl := s.due.getD a.prioClass []
      if 1 < dl.length then
        (true, { s with tasks := tasks1
                      , due := s.due.set a.prioClass (dl.tail ++ [s.active]) })
      else
        (false, { s with tasks := tasks1 })
    else
      (false, { s with tasks := s.tasks.set s.active { a with cntRoundRobin := c } })
  else
    (false, s)

/-- onTimerTic of rtos.c: advance the cyclic system time, serve the timers of
all suspended tasks, run the round-robin block, and finish with the release
scan and the search for the task to activate. -/
def onTimerTic (s : KState) : Bool × KState :=
  let time1 := (s.time + 1) % 2 ^ timeW
  let s1 : KState := { s with time := time1, tasks := tickTimers time1 s.tasks s.suspended }
  let h2 := roundRobinPhase s1
  checkForTaskActivation h2.1 h2.2

/-- The posting step of setEvent for one suspended task. -/
def postUpd (vec : Nat) (t : Task) : Task :=
  { t with postedEventVec := t.postedEventVec ||| (vec &&& t.eventMask) }

def postEvents (vec : Nat) (tasks : List Task) (susp : List Nat) : List Task :=
  updEach (postUpd vec) tasks susp

/-- setEvent of rtos.c: strip the timer events from the posted vector (they
cannot be set manually), OR the masked vector into every suspended task's
posted-event vector, then run the release scan. -/
def setEvent (eventVec : Nat) (s : KState) : Bool × KState :=
  let vec := eventVec &&& (0xFFFF ^^^ TIMER_EVT_MASK)
  let s1 : KState := { s with tasks := postEvents vec s.tasks s.suspended }
  checkForTaskActivation false s1

/-- waitForEvent of rtos.c (the suspend logic; n is the index of the idle
task): take the active task out of the head of the due list of its priority
class, store its resume condition, append it to the suspended array, record
it in _pSuspendedTask, and activate the first entry of the highest non-empty
priority class, falling back to the idle task. -/
def waitForEvent (n : Nat) (eventMask : Nat) (all : Bool) (timeout : Nat)
    (s : KState) : KState :=
  let pT := getTask s s.active
  let due1 := s.due.set pT.prioClass (s.due.getD pT.prioClass []).tail
  let tasks1 := s.tasks.set s.active (storeResumeCondition timeW s.time pT eventMask all timeout)
  let act1 :=
    match findDueHead due1 due1.length with
    | some id => id
    | none => n
  { s with tasks := tasks1, due := due1, suspended := s.suspended ++ [s.active]
         , suspendedFrom := s.active, active := act1 }

/-- The return-code staging performed by the context-switch code pattern of
every ISR and suspend primitive: when the incoming active task holds a
non-zero posted-event vector it pauses inside a suspend command, the vector
is delivered as that command's return value and cleared. -/
def pushRetCodeOfSwitch (s : KState) : KState :=
  let a := getTask s s.active
  if 0 < a.postedEventVec then
    { s with tasks := s.tasks.set s.active { a with postedEventVec := 0 } }
  else s

/-- The system-timer ISR: run onTimerTic and, only on a task switch, stage
the incoming task's return code. -/
def tickISR (s : KState) : KState :=
  let r := onTimerTic s
  if r.1 then pushRetCodeOfSwitch r.2 else r.2

/-- rtos_setEvent: run setEvent and, only on a task switch, stage the
incoming task's return code. -/
def setEventISR (vec : Nat) (s : KState) : KState :=
  let r := setEvent vec s
  if r.1 then pushRetCodeOfSwitch r.2 else r.2

/-- rtos_waitForEvent: run the suspend logic, then unconditionally switch the
context and stage the incoming task's return code. -/
def waitForEventCall (n : Nat) (eventMask : Nat) (all : Bool) (timeout : Nat)
    (s : KState) : KState :=
  pushRetCodeOfSwitch (waitForEvent n eventMask all timeout s)

/-! ## Initialization and reachability -/

/-- The per-task application configuration passed to the task-initialization
routine during setup (stack parameters are not modelled). -/
structure TaskCfg where
  prioClass : Nat
  timeRoundRobin : Nat
  startEventMask : Nat
  startByAllEvents : Bool
  startTimeout : Nat
deriving DecidableEq, Repr

/-- The task descriptor produced for one application task by the task
initialization of rtos.c: the initial resume condition is stored against the
initial system time 2^w - 1, and rtos_initRTOS afterwards clears the
round-robin counter, the posted-event vector and the overrun counter. -/
def initTask (w : Nat) (cfg : TaskCfg) : Task :=
  let t0 : Task :=
    { prioClass := cfg.prioClass, timeDueAt := 0, timeRoundRobin := cfg.timeRoundRobin
    , cntDelay := 0, cntRoundRobin := 0, postedEventVec := 0, eventMask := 0
    , waitForAnyEvent := true, cntOverrun := 0 }
  let t1 := storeResumeCondition w (2 ^ w - 1) t0 cfg.startEventMask cfg.startByAllEvents
              cfg.startTimeout
  { t1 with cntRoundRobin := 0, postedEventVec := 0, cntOverrun := 0 }

/-- The idle task descriptor as set up by rtos_initRTOS (its priority class is
irrelevant at runtime and modelled as 0). -/
def idleTask : Task :=
  { prioClass := 0, timeDueAt := 0, timeRoundRobin := 0, cntDelay := 0
  , cntRoundRobin := 0, postedEventVec := 0, eventMask := 0
  , waitForAnyEvent := true, cntOverrun := 0 }

/-- The kernel state after rtos_initRTOS with P priority classes: every
application task is suspended, all due lists are empty, the idle task (index
n = cfgs.length) is active, and the time is 2^w - 1 so that the first tick
runs at time 0. -/
def initState (P : Nat) (cfgs : List TaskCfg) : KState :=
  { time := 2 ^ timeW - 1
  , tasks := cfgs.map (initTask timeW) ++ [idleTask]
  , due := List.replicate P []
  , suspended := List.range cfgs.length
  , active := cfgs.length
  , suspendedFrom := cfgs.length }

/-- The states reachable from kernel initialization by the kernel operations:
the system-timer tick, event posting, and the suspend primitive (which by its
precondition is only ever executed by a non-idle active task, with 16-bit
event arguments and a timeout of the cyclic time type). -/
inductive Reachable (P : Nat) (cfgs : List TaskCfg) : KState → Prop
  | init : Reachable P cfgs (initState P cfgs)
  | tick {s : KState} : Reachable P cfgs s → Reachable P cfgs (tickISR s)
  | post {s : KState} (vec : Nat) : vec < 65536 → Reachable P cfgs s →
      Reachable P cfgs (setEventISR vec s)
  | wait {s : KState} (eventMask : Nat) (all : Bool) (timeout : Nat) :
      s.active ≠ cfgs.length → eventMask < 65536 → timeout < 2 ^ timeW →
      Reachable P cfgs s →
      Reachable P cfgs (waitForEventCall cfgs.length eventMask all timeout s)

/-- Well-formed application configuration: at least one priority class, and
every configured priority class within range. -/
def WfCfg (P : Nat) (cfgs : List TaskCfg) : Prop :=
  0 < P ∧ ∀ cfg ∈ cfgs, cfg.prioClass < P

/-! ## List helper lemmas -/

theorem getD_set_self {α : Type _} (L : List α) {i : Nat} (v d : α) (h : i < L.length) :
    (L.set i v).getD i d = v := by
  induction L generalizing i with
  | nil => simp at h
  | cons x xs ih =>
    cases i with
    | zero => simp
    | succ n => simpa using ih (i := n) (by simpa using h)

theorem getD_set_ne {α : Type _} (L : List α) {i j : Nat} (v d : α) (h : i ≠ j) :
    (L.set i v).getD j d = L.getD j d := by
  induction L generalizing i j with
  | nil => simp
  | cons x xs ih =>
    cases i with
    | zero =>
      cases j with
      | zero => exact absurd rfl h
      | succ m => simp
    | succ n =>
      cases j with
      | zero => simp
      | succ m => simpa using ih (i := n) (j := m) (by omega)

theorem getD_of_len_le {α : Type _} (L : List α) {i : Nat} (d : α) (h : L.length ≤ i) :
    L.getD i d = d := by
  induction L generalizing i with
  | nil => cases i <;> simp
  | cons x xs ih =>
    cases i with
    | zero => simp at h
    | succ n => simpa using ih (i := n) (by simpa using h)

theorem set_decomp {α : Type _} (L : List α) {i : Nat} (v : α) (h : i < L.length) :
    L.set i v = L.take i ++ v :: L.drop (i + 1) := by
  induction L generalizing i with
  | nil => simp at h
  | cons x xs ih =>
    cases i with
    | zero => simp
    | succ n => simpa using ih (i := n) (by simpa using h)

theorem getD_decomp {α : Type _} (L : List α) {i : Nat} (d : α) (h : i < L.length) :
    L = L.take i ++ L.getD i d :: L.drop (i + 1) := by
  induction L generalizing i with
  | nil => simp at h
  | cons x xs ih =>
    cases i with
    | zero => simp
    | succ n =>
      have := ih (i := n) (by simpa using h)
      simpa using this

theorem mem_getD_imp_lt {α : Type _} {L : List (List α)} {c : Nat} {a : α}
    (h : a ∈ L.getD c []) : c < L.length := by
  by_contra hc
  rw [getD_of_len_le L [] (by omega)] at h
  simp at h

theorem mem_flatten_of_mem_getD {α : Type _} {L : List (List α)} {c : Nat} {a : α}
    (h : a ∈ L.getD c []) : a ∈ L.flatten := by
  have hc := mem_getD_imp_lt h
  rw [getD_decomp L [] hc]
  simp only [List.flatten_append, List.flatten_cons, List.mem_append]
  right; left; exact h

theorem flatten_set_decomp {α : Type _} (L : List (List α)) {i : Nat} (l' : List α)
    (h : i < L.length) :
    (L.set i l').flatten = (L.take i).flatten ++ l' ++ (L.drop (i + 1)).flatten := by
  rw [set_decomp L l' h]
  simp [List.flatten_append]

theorem flatten_getD_decomp {α : Type _} (L : List (List α)) {i : Nat} (h : i < L.length) :
    L.flatten = (L.take i).flatten ++ L.getD i [] ++ (L.drop (i + 1)).flatten := by
  conv_lhs => rw [getD_decomp L [] h]
  simp [List.flatten_append]

theorem flatten_set_perm {α : Type _} {L : List (List α)} {i : Nat} {l' : List α}
    (h : i < L.length) (hp : List.Perm l' (L.getD i [])) :
    List.Perm (L.set i l').flatten L.flatten := by
  rw [flatten_set_decomp L l' h, flatten_getD_decomp L h]
  exact (hp.append_left _).append_right _

theorem flatten_set_append_perm {α : Type _} {L : List (List α)} {i : Nat} {x : α}
    (h : i < L.length) :
    List.Perm (L.set i (L.getD i [] ++ [x])).flatten (L.flatten ++ [x]) := by
  rw [flatten_set_decomp L _ h, flatten_getD_decomp L h]
  simp only [List.append_assoc]
  exact ((List.perm_append_comm).append_left _).append_left _

theorem set_of_len_le {α : Type _} (L : List α) {i : Nat} (v : α) (h : L.length ≤ i) :
    L.set i v = L := by
  induction L generalizing i with
  | nil => simp
  | cons x xs ih =>
    cases i with
    | zero => simp at h
    | succ n => simpa using ih (i := n) (by simpa using h)

/-! ## Characterizations of the kernel loops -/

theorem updEach_len (f : Task → Task) (tasks : List Task) (ids : List Nat) :
    (updEach f tasks ids).length = tasks.length := by
  induction ids generalizing tasks with
  | nil => rfl
  | cons j rest ih => simpa [updEach] using ih (tasks.set j (f (taskAt tasks j)))

theorem updEach_at_of_not_mem (f : Task → Task) (tasks : List Task) {ids : List Nat}
    {id : Nat} (h : id ∉ ids) : taskAt (updEach f tasks ids) id = taskAt tasks id := by
  induction ids generalizing tasks with
  | nil => rfl
  | cons j rest ih =>
    have hj : id ≠ j := fun he => h (by simp [he])
    have hr : id ∉ rest := fun he => h (by simp [he])
    rw [updEach, ih _ hr]
    exact getD_set_ne tasks _ _ (fun he => hj he.symm)

theorem updEach_at (f : Task → Task) (tasks : List Task) {ids : List Nat}
    (hnd : ids.Nodup) (hlt : ∀ i ∈ ids, i < tasks.length) (id : Nat) :
    taskAt (updEach f tasks ids) id =
      if id ∈ ids then f (taskAt tasks id) else taskAt tasks id := by
  induction ids generalizing tasks with
  | nil => simp [updEach]
  | cons j rest ih =>
    have hj : j ∉ rest := (List.nodup_cons.1 hnd).1
    have hnd' : rest.Nodup := (List.nodup_cons.1 hnd).2
    by_cases hid : id = j
    · subst hid
      rw [updEach, updEach_at_of_not_mem _ _ hj]
      have : taskAt (tasks.set id (f (taskAt tasks id))) id = f (taskAt tasks id) := by
        unfold taskAt
        exact getD_set_self tasks _ _ (hlt id (by simp))
      simp [this]
    · rw [updEach, ih _ hnd' (by
        intro i hi
        simpa using hlt i (by simp [hi]))]
      have he : taskAt (tasks.set j (f (taskAt tasks j))) id = taskAt tasks id := by
        unfold taskAt
        exact getD_set_ne tasks _ _ (fun hx => hid hx.symm)
      simp [he, hid]

/-- The tasks released during one scan: the suspended tasks, in order, whose
release test succeeds on their (unchanged) descriptors. -/
def relList (tasks : List Task) (susp : List Nat) : List Nat :=
  susp.filter (fun id => isReleased (taskAt tasks id))

/-- Appending each released task to the due list of its priority class. -/
def dueAppend (tasks : List Task) (due : List (List Nat)) (rel : List Nat) :
    List (List Nat) :=
  rel.foldl (fun d id =>
    d.set (taskAt tasks id).prioClass (d.getD (taskAt tasks id).prioClass [] ++ [id])) due

theorem filter_taskAt_set_of_not_mem (p : Task → Bool) (tasks : List Task) (v : Task)
    {id : Nat} {susp : List Nat} (h : id ∉ susp) :
    susp.filter (fun j => p (taskAt (tasks.set id v) j)) =
      susp.filter (fun j => p (taskAt tasks j)) := by
  induction susp with
  | nil => rfl
  | cons j rest ih =>
    have hj : id ≠ j := fun he => h (by simp [he])
    have hr : id ∉ rest := fun he => h (by simp [he])
    have he : taskAt (tasks.set id v) j = taskAt tasks j := getD_set_ne tasks _ _ hj
    simp only [List.filter_cons, he, ih hr]

theorem prioClass_set_releaseUpd (tasks : List Task) (i j : Nat) :
    (taskAt (tasks.set i (releaseUpd (taskAt tasks i))) j).prioClass =
      (taskAt tasks j).prioClass := by
  unfold taskAt
  by_cases hle : tasks.length ≤ i
  · rw [set_of_len_le tasks _ hle]
  · by_cases hij : i = j
    · subst hij
      rw [getD_set_self tasks _ _ (by omega)]
      rfl
    · rw [getD_set_ne tasks _ _ hij]

theorem dueAppend_cons (tasks : List Task) (due : List (List Nat)) (id : Nat)
    (rest : List Nat) :
    dueAppend tasks due (id :: rest) =
      dueAppend tasks (due.set (taskAt tasks id).prioClass
        (due.getD (taskAt tasks id).prioClass [] ++ [id])) rest := rfl

theorem dueAppend_len (tasks : List Task) (due : List (List Nat)) (rel : List Nat) :
    (dueAppend tasks due rel).length = due.length := by
  induction rel generalizing due with
  | nil => rfl
  | cons id rest ih =>
    rw [dueAppend_cons, ih _]
    simp

theorem dueAppend_congr_tasks {tasks1 tasks : List Task}
    (hcl : ∀ j, (taskAt tasks1 j).prioClass = (taskAt tasks j).prioClass)
    (due : List (List Nat)) (rel : List Nat) :
    dueAppend tasks1 due rel = dueAppend tasks due rel := by
  induction rel generalizing due with
  | nil => rfl
  | cons id rest ih =>
    rw [dueAppend_cons, dueAppend_cons, hcl id]
    exact ih _

theorem dueAppend_getD (tasks : List Task) {due : List (List Nat)} {rel : List Nat}
    (hcls : ∀ id ∈ rel, (taskAt tasks id).prioClass < due.length) (c : Nat) :
    (dueAppend tasks due rel).getD c [] =
      due.getD c [] ++ rel.filter (fun id => (taskAt tasks id).prioClass == c) := by
  induction rel generalizing due with
  | nil => simp [dueAppend]
  | cons id rest ih =>
    have hid : (taskAt tasks id).prioClass < due.length := hcls id (by simp)
    rw [dueAppend_cons, ih (by
      intro i hi
      simpa using hcls i (by simp [hi]))]
    by_cases hc : (taskAt tasks id).prioClass = c
    · rw [hc, getD_set_self due _ _ (hc ▸ hid)]
      simp [List.filter_cons, hc]
    · rw [getD_set_ne due _ _ hc]
      simp [List.filter_cons, hc]

theorem dueAppend_flatten_perm (tasks : List Task) (due : List (List Nat))
    {rel : List Nat}
    (hcls : ∀ id ∈ rel, (taskAt tasks id).prioClass < due.length) :
    List.Perm (dueAppend tasks due rel).flatten (due.flatten ++ rel) := by
  induction rel generalizing due with
  | nil => simp [dueAppend]
  | cons id rest ih =>
    have hid : (taskAt tasks id).prioClass < due.length := hcls id (by simp)
    have h1 := flatten_set_append_perm (L := due) (i := (taskAt tasks id).prioClass)
      (x := id) hid
    have h2 := @ih (due.set (taskAt tasks id).prioClass
      (due.getD (taskAt tasks id).prioClass [] ++ [id])) (by
        intro i hi
        simpa using hcls i (by simp [hi]))
    refine (h2.trans ?_)
    refine (h1.append_right rest).trans ?_
    simp [List.append_assoc]

theorem relList_set (tasks : List Task) (v : Task) {id : Nat} {susp : List Nat}
    (h : id ∉ susp) : relList (tasks.set id v) susp = relList tasks susp :=
  filter_taskAt_set_of_not_mem isReleased tasks v h

theorem keptFilter_set (tasks : List Task) (v : Task) {id : Nat} {susp : List Nat}
    (h : id ∉ susp) :
    susp.filter (fun j => !isReleased (taskAt (tasks.set id v) j)) =
      susp.filter (fun j => !isReleased (taskAt tasks j)) :=
  filter_taskAt_set_of_not_mem (fun t => !isReleased t) tasks v h

theorem relList_cons_pos {tasks : List Task} {id : Nat} (rest : List Nat)
    (hr : isReleased (taskAt tasks id) = true) :
    relList tasks (id :: rest) = id :: relList tasks rest := by
  simp [relList, List.filter_cons, hr]

theorem relList_cons_neg {tasks : List Task} {id : Nat} (rest : List Nat)
    (hr : isReleased (taskAt tasks id) = false) :
    relList tasks (id :: rest) = relList tasks rest := by
  simp [relList, List.filter_cons, hr]

theorem scanRelease_cons_pos (tasks : List Task) (due : List (List Nat)) (id : Nat)
    (rest : List Nat) (hr : isReleased (taskAt tasks id) = true) :
    scanRelease tasks due (id :: rest) =
      ((scanRelease (tasks.set id (releaseUpd (taskAt tasks id)))
          (due.set (taskAt tasks id).prioClass
            (due.getD (taskAt tasks id).prioClass [] ++ [id])) rest).1,
       (scanRelease (tasks.set id (releaseUpd (taskAt tasks id)))
          (due.set (taskAt tasks id).prioClass
            (due.getD (taskAt tasks id).prioClass [] ++ [id])) rest).2.1,
       (scanRelease (tasks.set id (releaseUpd (taskAt tasks id)))
          (due.set (taskAt tasks id).prioClass
            (due.getD (taskAt tasks id).prioClass [] ++ [id])) rest).2.2.1,
       true) := by
  simp [scanRelease, hr]

theorem scanRelease_cons_neg (tasks : List Task) (due : List (List Nat)) (id : Nat)
    (rest : List Nat) (hr : isReleased (taskAt tasks id) = false) :
    scanRelease tasks due (id :: rest) =
      ((scanRelease tasks due rest).1,
       (scanRelease tasks due rest).2.1,
       id :: (scanRelease tasks due rest).2.2.1,
       (scanRelease tasks due rest).2.2.2) := by
  simp [scanRelease, hr]

theorem scanRelease_eq (tasks : List Task) (due : List (List Nat)) {susp : List Nat}
    (hnd : susp.Nodup) :
    scanRelease tasks due susp =
      (updEach releaseUpd tasks (relList tasks susp),
       dueAppend tasks due (relList tasks susp),
       susp.filter (fun id => !isReleased (taskAt tasks id)),
       !(relList tasks susp).isEmpty) := by
  induction susp generalizing tasks due with
  | nil => simp [scanRelease, relList, dueAppend, updEach]
  | cons id rest ih =>
    have hj : id ∉ rest := (List.nodup_cons.1 hnd).1
    have hnd' : rest.Nodup := (List.nodup_cons.1 hnd).2
    by_cases hr : isReleased (taskAt tasks id)
    · rw [scanRelease_cons_pos tasks due id rest hr,
        ih (tasks.set id (releaseUpd (taskAt tasks id))) _ hnd',
        relList_set tasks _ hj, relList_cons_pos rest hr,
        dueAppend_congr_tasks (fun j => prioClass_set_releaseUpd tasks id j) _ _,
        keptFilter_set tasks _ hj]
      have hkept : (id :: rest).filter (fun j => !isReleased (taskAt tasks j)) =
          rest.filter (fun j => !isReleased (taskAt tasks j)) := by
        simp [List.filter_cons, hr]
      rw [hkept]
      rfl
    · have hrb : isReleased (taskAt tasks id) = false := by simpa using hr
      rw [scanRelease_cons_neg tasks due id rest hrb, ih tasks due hnd',
        relList_cons_neg rest hrb]
      have hkept : (id :: rest).filter (fun j => !isReleased (taskAt tasks j)) =
          id :: rest.filter (fun j => !isReleased (taskAt tasks j)) := by
        simp [List.filter_cons, hrb]
      rw [hkept]

theorem scanRelease_of_none (tasks : List Task) (due : List (List Nat))
    {susp : List Nat} (h : relList tasks susp = []) :
    scanRelease tasks due susp = (tasks, due, susp, false) := by
  induction susp with
  | nil => simp [scanRelease]
  | cons id rest ih =>
    by_cases hr : isReleased (taskAt tasks id)
    · exfalso
      rw [relList_cons_pos rest hr] at h
      simp at h
    · have hrb : isReleased (taskAt tasks id) = false := by simpa using hr
      have h2 : relList tasks rest = [] := by rw [← relList_cons_neg rest hrb]; exact h
      rw [scanRelease_cons_neg tasks due id rest hrb, ih h2]

theorem findDueHead_none_iff (due : List (List Nat)) (k : Nat) :
    findDueHead due k = none ↔ ∀ c, c < k → due.getD c [] = [] := by
  induction k with
  | zero => simp [findDueHead]
  | succ n ih =>
    rw [findDueHead]
    cases hh : (due.getD n []).head? with
    | some id =>
      simp only [reduceCtorEq, false_iff]
      intro hall
      rw [hall n (by omega)] at hh
      simp at hh
    | none =>
      have hempty : due.getD n [] = [] := List.head?_eq_none_iff.1 hh
      simp only [ih]
      constructor
      · intro hall c hc
        rcases Nat.lt_succ_iff_lt_or_eq.1 hc with h | h
        · exact hall c h
        · rw [h]; exact hempty
      · intro hall c hc
        exact hall c (by omega)

theorem findDueHead_some (due : List (List Nat)) {k : Nat} {id : Nat}
    (h : findDueHead due k = some id) :
    ∃ c, c < k ∧ (due.getD c []).head? = some id ∧
      ∀ c', c < c' → c' < k → due.getD c' [] = [] := by
  induction k with
  | zero => simp [findDueHead] at h
  | succ n ih =>
    rw [findDueHead] at h
    cases hh : (due.getD n []).head? with
    | some id' =>
      rw [hh] at h
      have hid : id' = id := by simpa using h
      refine ⟨n, by omega, by rw [hh, hid], ?_⟩
      intro c' hc1 hc2
      omega
    | none =>
      rw [hh] at h
      obtain ⟨c, hc, hhead, hrest⟩ := ih h
      refine ⟨c, by omega, hhead, ?_⟩
      intro c' hc1 hc2
      rcases Nat.lt_succ_iff_lt_or_eq.1 hc2 with hx | hx
      · exact hrest c' hc1 hx
      · rw [hx]; exact List.head?_eq_none_iff.1 hh

theorem mem_of_head?_eq_some {α : Type _} {l : List α} {a : α} (h : l.head? = some a) :
    a ∈ l := by
  cases l with
  | nil => simp at h
  | cons x xs =>
    simp only [List.head?_cons, Option.some.injEq] at h
    simp [h]

theorem taskAt_set_cases (tasks : List Task) (i : Nat) (v : Task) (j : Nat) :
    taskAt (tasks.set i v) j =
      if i = j ∧ i < tasks.length then v else taskAt tasks j := by
  unfold taskAt
  by_cases hle : tasks.length ≤ i
  · have hneg : ¬(i = j ∧ i < tasks.length) := fun hcon => absurd hcon.2 (by omega)
    rw [set_of_len_le tasks _ hle, if_neg hneg]
  · have hlt : i < tasks.length := by omega
    by_cases hij : i = j
    · subst hij
      rw [getD_set_self tasks _ _ hlt, if_pos ⟨rfl, hlt⟩]
    · have hneg : ¬(i = j ∧ i < tasks.length) := fun hcon => absurd hcon.1 hij
      rw [getD_set_ne tasks _ _ hij, if_neg hneg]

theorem updEach_prioClass {f : Task → Task} (hf : ∀ t, (f t).prioClass = t.prioClass)
    (tasks : List Task) (ids : List Nat) (j : Nat) :
    (taskAt (updEach f tasks ids) j).prioClass = (taskAt tasks j).prioClass := by
  induction ids generalizing tasks with
  | nil => rfl
  | cons i rest ih =>
    rw [updEach, ih _]
    rw [taskAt_set_cases]
    by_cases hc : i = j ∧ i < tasks.length
    · rw [if_pos hc, hf, hc.1]
    · rw [if_neg hc]

theorem releaseUpd_prioClass (t : Task) : (releaseUpd t).prioClass = t.prioClass := rfl

theorem postUpd_prioClass (vec : Nat) (t : Task) : (postUpd vec t).prioClass = t.prioClass := rfl

theorem tickTimersTask_prioClass (time : Nat) (t : Task) :
    (tickTimersTask time t).prioClass = t.prioClass := by
  unfold tickTimersTask
  by_cases h1 : time = t.timeDueAt <;> simp only [h1, if_pos, if_neg, reduceIte] <;>
    split <;> (try split) <;> rfl

/-! ## The kernel invariant -/

/-- The structural part of the kernel invariant: shapes of the arrays,
priority classes within range, no duplicate bookkeeping entries, disjoint
due and suspended sets, and the idle task kept out of both and untouched. -/
structure InvCore (P n : Nat) (s : KState) : Prop where
  tasksLen : s.tasks.length = n + 1
  dueLen : s.due.length = P
  classLt : ∀ id, id ≤ n → (getTask s id).prioClass < P
  dueIdLt : ∀ c id, id ∈ dueAt s c → id < n
  dueClassEq : ∀ c id, id ∈ dueAt s c → (getTask s id).prioClass = c
  suspIdLt : ∀ id, id ∈ s.suspended → id < n
  suspNodup : s.suspended.Nodup
  dueNodup : (dueAll s).Nodup
  suspDueDisj : ∀ id, id ∈ s.suspended → id ∉ dueAll s
  activeLe : s.active ≤ n
  activeNotSusp : s.active ∉ s.suspended
  idleRec : getTask s n = idleTask

/-- The scheduling part of the kernel invariant: when the idle task is
active no task is due, and a non-idle active task is the first entry of the
due list of its priority class, with all higher classes empty. -/
structure Inv (P n : Nat) (s : KState) extends InvCore P n s : Prop where
  idleNoDue : s.active = n → ∀ c, dueAt s c = []
  activeHead : s.active < n →
    (dueAt s (getTask s s.active).prioClass).head? = some s.active
  activeTop : s.active < n → ∀ c, (getTask s s.active).prioClass < c → dueAt s c = []

theorem cfta_shape {s : KState} (hint : Bool) (hnd : s.suspended.Nodup) :
    checkForTaskActivation hint s =
      (if hint || !(relList s.tasks s.suspended).isEmpty then
        match findDueHead (dueAppend s.tasks s.due (relList s.tasks s.suspended))
            (dueAppend s.tasks s.due (relList s.tasks s.suspended)).length with
        | some id =>
          (decide (id ≠ s.active),
           { s with tasks := updEach releaseUpd s.tasks (relList s.tasks s.suspended)
                  , due := dueAppend s.tasks s.due (relList s.tasks s.suspended)
                  , suspended := s.suspended.filter (fun j => !isReleased (taskAt s.tasks j))
                  , suspendedFrom := s.active
                  , active := id })
        | none =>
          (true,
           { s with tasks := updEach releaseUpd s.tasks (relList s.tasks s.suspended)
                  , due := dueAppend s.tasks s.due (relList s.tasks s.suspended)
                  , suspended := s.suspended.filter (fun j => !isReleased (taskAt s.tasks j)) })
      else
        (false,
         { s with tasks := updEach releaseUpd s.tasks (relList s.tasks s.suspended)
                , due := dueAppend s.tasks s.due (relList s.tasks s.suspended)
                , suspended := s.suspended.filter (fun j => !isReleased (taskAt s.tasks j)) })) := by
  unfold checkForTaskActivation
  rw [scanRelease_eq s.tasks s.due hnd]

theorem inv_checkForTaskActivation {P n : Nat} {s : KState} {hint : Bool}
    (hC : InvCore P n s)
    (hIdle : hint = false → s.active = n → ∀ c, dueAt s c = [])
    (hHead : hint = false → s.active < n →
      (dueAt s (getTask s s.active).prioClass).head? = some s.active)
    (hTop : hint = false → s.active < n → ∀ c,
      (getTask s s.active).prioClass < c → dueAt s c = [])
    (hNE : hint = true → ∃ c, c < P ∧ dueAt s c ≠ []) :
    Inv P n (checkForTaskActivation hint s).2 := by
  have hnd := hC.suspNodup
  have hrelmem : ∀ id ∈ relList s.tasks s.suspended,
      id ∈ s.suspended ∧ isReleased (taskAt s.tasks id) = true := by
    intro id hid
    exact ⟨(List.mem_filter.1 hid).1, by simpa using (List.mem_filter.1 hid).2⟩
  have hrellt : ∀ id ∈ relList s.tasks s.suspended, id < n :=
    fun id hid => hC.suspIdLt id (hrelmem id hid).1
  have hrelcls : ∀ id ∈ relList s.tasks s.suspended,
      (taskAt s.tasks id).prioClass < s.due.length := by
    intro id hid
    rw [hC.dueLen]
    exact hC.classLt id (le_of_lt (hrellt id hid))
  have hreln : (relList s.tasks s.suspended).Nodup := hnd.filter _
  have hgetD' : ∀ c, (dueAppend s.tasks s.due (relList s.tasks s.suspended)).getD c [] =
      dueAt s c ++ (relList s.tasks s.suspended).filter
        (fun j => (taskAt s.tasks j).prioClass == c) :=
    fun c => dueAppend_getD s.tasks hrelcls c
  have hmem' : ∀ c j, j ∈ (dueAppend s.tasks s.due (relList s.tasks s.suspended)).getD c [] →
      j ∈ dueAt s c ∨ (j ∈ relList s.tasks s.suspended ∧ (taskAt s.tasks j).prioClass = c) := by
    intro c j hj
    rw [hgetD'] at hj
    rcases List.mem_append.1 hj with h | h
    · exact Or.inl h
    · right
      refine ⟨(List.mem_filter.1 h).1, ?_⟩
      have := (List.mem_filter.1 h).2
      simpa using this
  have hcls' : ∀ j, (taskAt (updEach releaseUpd s.tasks (relList s.tasks s.suspended)) j).prioClass
      = (taskAt s.tasks j).prioClass :=
    fun j => updEach_prioClass releaseUpd_prioClass s.tasks _ j
  have hlen' : (dueAppend s.tasks s.due (relList s.tasks s.suspended)).length = P := by
    rw [dueAppend_len, hC.dueLen]
  have hperm : List.Perm (dueAppend s.tasks s.due (relList s.tasks s.suspended)).flatten
      (s.due.flatten ++ relList s.tasks s.suspended) :=
    dueAppend_flatten_perm s.tasks s.due hrelcls
  have hflatnd : (dueAppend s.tasks s.due (relList s.tasks s.suspended)).flatten.Nodup := by
    refine hperm.nodup_iff.2 (List.nodup_append.2 ⟨hC.dueNodup, hreln, ?_⟩)
    intro a ha har
    exact hC.suspDueDisj a (hrelmem a har).1 ha
  have hkeptDisj : ∀ j ∈ s.suspended.filter (fun i => !isReleased (taskAt s.tasks i)),
      j ∉ (dueAppend s.tasks s.due (relList s.tasks s.suspended)).flatten := by
    intro j hj hmem
    have hjs : j ∈ s.suspended := (List.mem_filter.1 hj).1
    have hjr : isReleased (taskAt s.tasks j) = false := by
      have := (List.mem_filter.1 hj).2
      simpa using this
    rcases List.mem_append.1 (hperm.mem_iff.1 hmem) with h | h
    · exact hC.suspDueDisj j hjs h
    · rw [(hrelmem j h).2] at hjr
      simp at hjr
  rw [cfta_shape hint hnd]
  by_cases hb : (hint || !(relList s.tasks s.suspended).isEmpty) = true
  · rw [if_pos hb]
    cases hfd : findDueHead (dueAppend s.tasks s.due (relList s.tasks s.suspended))
        (dueAppend s.tasks s.due (relList s.tasks s.suspended)).length with
    | none =>
      exfalso
      have hempty := (findDueHead_none_iff _ _).1 hfd
      cases hrel : relList s.tasks s.suspended with
      | cons id0 r0 =>
        have hid0 : id0 ∈ relList s.tasks s.suspended := by rw [hrel]; simp
        have hc0 : (taskAt s.tasks id0).prioClass < s.due.length := hrelcls id0 hid0
        have hne : id0 ∈ (dueAppend s.tasks s.due (relList s.tasks s.suspended)).getD
            (taskAt s.tasks id0).prioClass [] := by
          rw [hgetD']
          refine List.mem_append.2 (Or.inr ?_)
          refine List.mem_filter.2 ⟨hid0, by simp⟩
        have := hempty (taskAt s.tasks id0).prioClass (by rw [dueAppend_len]; exact hc0)
        rw [this] at hne
        simp at hne
      | nil =>
        have hhint : hint = true := by
          rcases Bool.or_eq_true_iff.1 hb with h | h
          · exact h
          · rw [hrel] at h
            simp at h
        obtain ⟨c, hcP, hcne⟩ := hNE hhint
        have := hempty c (by rw [hlen']; exact hcP)
        rw [hrel] at this
        have hdue0 : dueAppend s.tasks s.due ([] : List Nat) = s.due := rfl
        rw [hdue0] at this
        exact hcne this
    | some id =>
      dsimp only
      obtain ⟨cstar, hcP', hhead, habove⟩ := findDueHead_some _ hfd
      have hidmem : id ∈ (dueAppend s.tasks s.due (relList s.tasks s.suspended)).getD cstar [] :=
        mem_of_head?_eq_some hhead
      have hidlt : id < n := by
        rcases hmem' cstar id hidmem with h | h
        · exact hC.dueIdLt cstar id h
        · exact hrellt id h.1
      have hidcls : (taskAt s.tasks id).prioClass = cstar := by
        rcases hmem' cstar id hidmem with h | h
        · exact hC.dueClassEq cstar id h
        · exact h.2
      refine ⟨⟨?_, ?_, ?_, ?_, ?_, ?_, ?_, ?_, ?_, ?_, ?_, ?_⟩, ?_, ?_, ?_⟩
      · show (updEach releaseUpd s.tasks (relList s.tasks s.suspended)).length = n + 1
        rw [updEach_len]
        exact hC.tasksLen
      · exact hlen'
      · intro j hj
        show (taskAt (updEach releaseUpd s.tasks (relList s.tasks s.suspended)) j).prioClass < P
        rw [hcls' j]
        exact hC.classLt j hj
      · intro c j hj
        rcases hmem' c j hj with h | h
        · exact hC.dueIdLt c j h
        · exact hrellt j h.1
      · intro c j hj
        show (taskAt (updEach releaseUpd s.tasks (relList s.tasks s.suspended)) j).prioClass = c
        rw [hcls' j]
        rcases hmem' c j hj with h | h
        · exact hC.dueClassEq c j h
        · exact h.2
      · intro j hj
        exact hC.suspIdLt j (List.mem_filter.1 hj).1
      · exact hnd.filter _
      · exact hflatnd
      · exact hkeptDisj
      · show id ≤ n
        omega
      · show id ∉ s.suspended.filter (fun i => !isReleased (taskAt s.tasks i))
        intro hin
        exact hkeptDisj id hin (mem_flatten_of_mem_getD hidmem)
      · show taskAt (updEach releaseUpd s.tasks (relList s.tasks s.suspended)) n = idleTask
        rw [updEach_at_of_not_mem _ _ (fun hmem => by
          have := hrellt n hmem
          omega)]
        exact hC.idleRec
      · intro heq
        dsimp only at heq
        exact absurd heq (by omega)
      · intro _
        show ((dueAppend s.tasks s.due (relList s.tasks s.suspended)).getD
          (taskAt (updEach releaseUpd s.tasks (relList s.tasks s.suspended)) id).prioClass
          []).head? = some id
        rw [hcls' id, hidcls]
        exact hhead
      · intro _ c hc
        show (dueAppend s.tasks s.due (relList s.tasks s.suspended)).getD c [] = []
        dsimp only [getTask] at hc
        rw [hcls' id, hidcls] at hc
        by_cases hcl : c < (dueAppend s.tasks s.due (relList s.tasks s.suspended)).length
        · exact habove c hc hcl
        · exact getD_of_len_le _ _ (by omega)
  · rw [if_neg hb]
    have hb' : (hint || !(relList s.tasks s.suspended).isEmpty) = false := by
      simpa using hb
    have hhint : hint = false := by
      cases hx : hint
      · rfl
      · rw [hx] at hb'
        simp at hb'
    have hrel0 : relList s.tasks s.suspended = [] := by
      rw [hhint] at hb'
      simp only [Bool.false_or, Bool.not_eq_false] at hb'
      simpa [List.isEmpty_iff] using hb'
    have hfilter : s.suspended.filter (fun j => !isReleased (taskAt s.tasks j)) = s.suspended := by
      refine List.filter_eq_self.2 ?_
      intro a ha
      have := List.filter_eq_nil_iff.1 hrel0 a ha
      simpa using this
    rw [hrel0, hfilter]
    exact ⟨hC, hIdle hhint, hHead hhint, hTop hhint⟩

theorem getD_append_lt {α : Type _} (l1 l2 : List α) {i : Nat} (d : α) (h : i < l1.length) :
    (l1 ++ l2).getD i d = l1.getD i d := by
  induction l1 generalizing i with
  | nil => simp at h
  | cons x xs ih =>
    cases i with
    | zero => simp
    | succ m => simpa using ih (i := m) (by simpa using h)

theorem getD_append_len {α : Type _} (l1 l2 : List α) (d : α) :
    (l1 ++ l2).getD l1.length d = l2.getD 0 d := by
  induction l1 with
  | nil => simp
  | cons x xs ih => simpa using ih

theorem getD_map_lt {α β : Type _} (f : α → β) (l : List α) {i : Nat} (d : β) (d0 : α)
    (h : i < l.length) : (l.map f).getD i d = f (l.getD i d0) := by
  induction l generalizing i with
  | nil => simp at h
  | cons x xs ih =>
    cases i with
    | zero => simp
    | succ m => simpa using ih (i := m) (by simpa using h)

theorem getD_replicate_nil {α : Type _} (P c : Nat) :
    (List.replicate P ([] : List α)).getD c [] = [] := by
  induction P generalizing c with
  | zero => cases c <;> simp
  | succ m ih =>
    cases c with
    | zero => simp [List.replicate]
    | succ k => simpa [List.replicate] using ih (c := k)

theorem flatten_replicate_nil {α : Type _} (P : Nat) :
    (List.replicate P ([] : List α)).flatten = [] := by
  induction P with
  | zero => simp
  | succ m ih => simpa [List.replicate] using ih

theorem head?_decomp {α : Type _} {l : List α} {a : α} (h : l.head? = some a) :
    l = a :: l.tail := by
  cases l with
  | nil => simp at h
  | cons x xs =>
    simp only [List.head?_cons, Option.some.injEq] at h
    rw [h]
    rfl

theorem storeResumeCondition_prioClass (w time : Nat) (t : Task) (eventMask : Nat)
    (all : Bool) (timeout : Nat) :
    (storeResumeCondition w time t eventMask all timeout).prioClass = t.prioClass := by
  unfold storeResumeCondition
  by_cases hA : eventMask &&& RTOS_EVT_ABSOLUTE_TIMER ≠ 0
  · simp only [if_pos hA]
    by_cases hB : ((t.timeDueAt + timeout) % 2 ^ w + (2 ^ w - time % 2 ^ w)) % 2 ^ w = 0 ∨
        2 ^ (w - 1) ≤ ((t.timeDueAt + timeout) % 2 ^ w + (2 ^ w - time % 2 ^ w)) % 2 ^ w
    · simp only [if_pos hB]
    · simp only [if_neg hB]
  · simp only [if_neg hA]

theorem initTask_prioClass (w : Nat) (cfg : TaskCfg) :
    (initTask w cfg).prioClass = cfg.prioClass := by
  unfold initTask
  dsimp only
  rw [storeResumeCondition_prioClass]

theorem getD_mem_of_lt {α : Type _} (l : List α) {i : Nat} (d : α) (h : i < l.length) :
    l.getD i d ∈ l := by
  induction l generalizing i with
  | nil => simp at h
  | cons x xs ih =>
    cases i with
    | zero => simp
    | succ m =>
      have := ih (i := m) (by simpa using h)
      simp only [List.getD_cons_succ]
      exact List.mem_cons_of_mem x this

theorem taskAt_set_prioClass (tasks : List Task) (i : Nat) (v : Task)
    (hv : v.prioClass = (taskAt tasks i).prioClass) (j : Nat) :
    (taskAt (tasks.set i v) j).prioClass = (taskAt tasks j).prioClass := by
  rw [taskAt_set_cases]
  by_cases hc : i = j ∧ i < tasks.length
  · rw [if_pos hc, hv, hc.1]
  · rw [if_neg hc]

/-- The state after rtos_initRTOS satisfies the kernel invariant. -/
theorem inv_init {P : Nat} {cfgs : List TaskCfg} (hw : WfCfg P cfgs) :
    Inv P cfgs.length (initState P cfgs) := by
  obtain ⟨hP, hcls⟩ := hw
  have hlen : (cfgs.map (initTask timeW)).length = cfgs.length := by simp
  have hTask : ∀ id, id < cfgs.length →
      taskAt (cfgs.map (initTask timeW) ++ [idleTask]) id = initTask timeW (cfgs.getD id
        { prioClass := 0, timeRoundRobin := 0, startEventMask := 0
        , startByAllEvents := false, startTimeout := 0 }) := by
    intro id hid
    unfold taskAt
    rw [getD_append_lt _ _ _ (by omega), getD_map_lt _ _ _ _ (by omega)]
  have hIdle : taskAt (cfgs.map (initTask timeW) ++ [idleTask]) cfgs.length = idleTask := by
    unfold taskAt
    rw [show cfgs.length = (cfgs.map (initTask timeW)).length from hlen.symm ▸ rfl]
    rw [getD_append_len]
    rfl
  refine ⟨⟨?_, ?_, ?_, ?_, ?_, ?_, ?_, ?_, ?_, ?_, ?_, ?_⟩, ?_, ?_, ?_⟩
  · simp [initState]
  · simp [initState]
  · intro id hid
    show (taskAt (cfgs.map (initTask timeW) ++ [idleTask]) id).prioClass < P
    by_cases hlt : id < cfgs.length
    · rw [hTask id hlt, initTask_prioClass]
      exact hcls _ (getD_mem_of_lt cfgs _ (by omega))
    · have hid' : id = cfgs.length := by omega
      rw [hid', hIdle]
      exact hP
  · intro c id hid
    rw [show dueAt (initState P cfgs) c = [] from getD_replicate_nil P c] at hid
    simp at hid
  · intro c id hid
    rw [show dueAt (initState P cfgs) c = [] from getD_replicate_nil P c] at hid
    simp at hid
  · intro id hid
    simpa [initState] using hid
  · show (List.range cfgs.length).Nodup
    exact List.nodup_range _
  · show (List.replicate P ([] : List Nat)).flatten.Nodup
    rw [flatten_replicate_nil]
    exact List.nodup_nil
  · intro id hid
    show id ∉ (List.replicate P ([] : List Nat)).flatten
    rw [flatten_replicate_nil]
    simp
  · exact le_refl _
  · show cfgs.length ∉ List.range cfgs.length
    simp
  · exact hIdle
  · intro _ c
    exact getD_replicate_nil P c
  · intro h
    dsimp only [initState] at h
    exact absurd h (by omega)
  · intro h
    dsimp only [initState] at h
    exact absurd h (by omega)

/-- Updating the task table without touching any priority class, the idle
descriptor, or the scheduling bookkeeping preserves the invariant (the system
time may change freely; the invariant does not mention it). -/
theorem inv_tasksUpd {P n : Nat} {s : KState} (hI : Inv P n s) (tasks' : List Task)
    (hlen : tasks'.length = s.tasks.length)
    (hcls : ∀ j, (taskAt tasks' j).prioClass = (taskAt s.tasks j).prioClass)
    (hidle : taskAt tasks' n = taskAt s.tasks n) (t1 : Nat) :
    Inv P n { s with time := t1, tasks := tasks' } := by
  refine ⟨⟨?_, ?_, ?_, ?_, ?_, ?_, ?_, ?_, ?_, ?_, ?_, ?_⟩, ?_, ?_, ?_⟩
  · show tasks'.length = n + 1
    rw [hlen]
    exact hI.tasksLen
  · exact hI.dueLen
  · intro id hid
    show (taskAt tasks' id).prioClass < P
    rw [hcls id]
    exact hI.classLt id hid
  · exact hI.dueIdLt
  · intro c id hid
    show (taskAt tasks' id).prioClass = c
    rw [hcls id]
    exact hI.dueClassEq c id hid
  · exact hI.suspIdLt
  · exact hI.suspNodup
  · exact hI.dueNodup
  · exact hI.suspDueDisj
  · exact hI.activeLe
  · exact hI.activeNotSusp
  · show taskAt tasks' n = idleTask
    rw [hidle]
    exact hI.idleRec
  · exact hI.idleNoDue
  · intro h
    show (dueAt { s with time := t1, tasks := tasks' }
      (taskAt tasks' s.active).prioClass).head? = some s.active
    rw [hcls s.active]
    exact hI.activeHead h
  · intro h c hc
    dsimp only [getTask] at hc
    rw [hcls s.active] at hc
    exact hI.activeTop h c hc

theorem not_mem_susp_of_idle {P n : Nat} {s : KState} (hC : InvCore P n s) :
    n ∉ s.suspended :=
  fun hmem => absurd (hC.suspIdLt n hmem) (by omega)

/-- Applying a class-preserving per-task update to every suspended task
preserves the invariant. -/
theorem inv_updEach_susp {P n : Nat} {s : KState} (hI : Inv P n s) (f : Task → Task)
    (hf : ∀ t, (f t).prioClass = t.prioClass) (t1 : Nat) :
    Inv P n { s with time := t1, tasks := updEach f s.tasks s.suspended } :=
  inv_tasksUpd hI _ (updEach_len f s.tasks s.suspended)
    (updEach_prioClass hf s.tasks s.suspended)
    (updEach_at_of_not_mem f s.tasks (not_mem_susp_of_idle hI.toInvCore)) t1

/-- Staging the return code of a context switch preserves the invariant. -/
theorem inv_pushRetCode {P n : Nat} {s : KState} (hI : Inv P n s) :
    Inv P n (pushRetCodeOfSwitch s) := by
  unfold pushRetCodeOfSwitch
  dsimp only
  by_cases hpos : 0 < (getTask s s.active).postedEventVec
  · rw [if_pos hpos]
    have hact : s.active ≠ n := by
      intro he
      rw [he, hI.idleRec] at hpos
      simp [idleTask] at hpos
    have hne : ¬(s.active = n ∧ s.active < s.tasks.length) := fun hcon => hact hcon.1
    exact inv_tasksUpd hI
      (s.tasks.set s.active { getTask s s.active with postedEventVec := 0 })
      (List.length_set s.tasks _ _)
      (taskAt_set_prioClass s.tasks s.active
        { getTask s s.active with postedEventVec := 0 } rfl)
      (by rw [taskAt_set_cases, if_neg hne]) s.time
  · rw [if_neg hpos]
    exact hI

/-- If the round-robin block reports no rotation, the invariant carries over
to its result state unchanged in all scheduling-relevant parts. -/
theorem roundRobin_inv_false {P n : Nat} {s : KState} (hI : Inv P n s)
    (hfl : (roundRobinPhase s).1 = false) : Inv P n (roundRobinPhase s).2 := by
  unfold roundRobinPhase at *
  dsimp only at *
  by_cases h1 : 0 < (getTask s s.active).cntRoundRobin
  · have hact : s.active ≠ n := by
      intro he
      rw [he, hI.idleRec] at h1
      simp [idleTask] at h1
    have hne : ¬(s.active = n ∧ s.active < s.tasks.length) := fun hcon => hact hcon.1
    rw [if_pos h1] at hfl ⊢
    by_cases h2 : (getTask s s.active).cntRoundRobin - 1 = 0
    · rw [if_pos h2] at hfl ⊢
      by_cases h3 : 1 < (s.due.getD (getTask s s.active).prioClass []).length
      · rw [if_pos h3] at hfl
        simp at hfl
      · rw [if_neg h3] at hfl ⊢
        exact inv_tasksUpd hI
          (s.tasks.set s.active
            { getTask s s.active with cntRoundRobin := (getTask s s.active).timeRoundRobin })
          (List.length_set s.tasks _ _)
          (taskAt_set_prioClass s.tasks s.active
            { getTask s s.active with cntRoundRobin := (getTask s s.active).timeRoundRobin } rfl)
          (by rw [taskAt_set_cases, if_neg hne]) s.time
    · rw [if_neg h2] at hfl ⊢
      exact inv_tasksUpd hI
        (s.tasks.set s.active
          { getTask s s.active with cntRoundRobin := (getTask s s.active).cntRoundRobin - 1 })
        (List.length_set s.tasks _ _)
        (taskAt_set_prioClass s.tasks s.active
          { getTask s s.active with cntRoundRobin := (getTask s s.active).cntRoundRobin - 1 } rfl)
        (by rw [taskAt_set_cases, if_neg hne]) s.time
  · rw [if_neg h1] at hfl ⊢
    exact hI

/-- If the round-robin block rotated the active class's due list, the
structural invariant still holds for its result state and the rotated due
list is non-empty. -/
theorem roundRobin_true {P n : Nat} {s : KState} (hI : Inv P n s)
    (hfl : (roundRobinPhase s).1 = true) :
    InvCore P n (roundRobinPhase s).2 ∧
      ∃ c, c < P ∧ dueAt (roundRobinPhase s).2 c ≠ [] := by
  unfold roundRobinPhase at *
  dsimp only at *
  by_cases h1 : 0 < (getTask s s.active).cntRoundRobin
  case neg =>
    rw [if_neg h1] at hfl
    simp at hfl
  rw [if_pos h1] at hfl ⊢
  have hact : s.active ≠ n := by
    intro he
    rw [he, hI.idleRec] at h1
    simp [idleTask] at h1
  have hlt : s.active < n := by
    have := hI.activeLe
    omega
  have hne : ¬(s.active = n ∧ s.active < s.tasks.length) := fun hcon => hact hcon.1
  by_cases h2 : (getTask s s.active).cntRoundRobin - 1 = 0
  case neg =>
    rw [if_neg h2] at hfl
    simp at hfl
  rw [if_pos h2] at hfl ⊢
  by_cases h3 : 1 < (s.due.getD (getTask s s.active).prioClass []).length
  case neg =>
    rw [if_neg h3] at hfl
    simp at hfl
  rw [if_pos h3] at hfl ⊢
  have hcP : (getTask s s.active).prioClass < P := hI.classLt s.active hI.activeLe
  have hclen : (getTask s s.active).prioClass < s.due.length := by
    rw [hI.dueLen]
    exact hcP
  have hhd := hI.activeHead hlt
  have hdl : dueAt s (getTask s s.active).prioClass =
      s.active :: (dueAt s (getTask s s.active).prioClass).tail := head?_decomp hhd
  have hperm : List.Perm ((s.due.getD (getTask s s.active).prioClass []).tail ++ [s.active])
      (s.due.getD (getTask s s.active).prioClass []) := by
    have h0 : List.Perm ((s.due.getD (getTask s s.active).prioClass []).tail ++ [s.active])
        (s.active :: (s.due.getD (getTask s s.active).prioClass []).tail) :=
      List.perm_append_comm
    rw [show (s.due.getD (getTask s s.active).prioClass []) =
      s.active :: (s.due.getD (getTask s s.active).prioClass []).tail from hdl]
    exact h0
  have hflat : List.Perm (s.due.set (getTask s s.active).prioClass
      ((s.due.getD (getTask s s.active).prioClass []).tail ++ [s.active])).flatten
      s.due.flatten := flatten_set_perm hclen hperm
  have hmemset : ∀ c j, j ∈ (s.due.set (getTask s s.active).prioClass
      ((s.due.getD (getTask s s.active).prioClass []).tail ++ [s.active])).getD c [] →
      j ∈ dueAt s c := by
    intro c j hj
    by_cases hc : (getTask s s.active).prioClass = c
    · rw [← hc] at hj ⊢
      rw [getD_set_self s.due _ _ hclen] at hj
      rcases List.mem_append.1 hj with h | h
      · rw [show dueAt s (getTask s s.active).prioClass =
          s.active :: (dueAt s (getTask s s.active).prioClass).tail from hdl]
        exact List.mem_cons_of_mem _ h
      · simp only [List.mem_singleton] at h
        subst h
        exact mem_of_head?_eq_some hhd
    · rw [getD_set_ne s.due _ _ hc] at hj
      exact hj
  constructor
  · refine ⟨?_, ?_, ?_, ?_, ?_, ?_, ?_, ?_, ?_, ?_, ?_, ?_⟩
    · show (s.tasks.set s.active _).length = n + 1
      rw [List.length_set]
      exact hI.tasksLen
    · show (s.due.set _ _).length = P
      rw [List.length_set]
      exact hI.dueLen
    · intro id hid
      show (taskAt (s.tasks.set s.active
        { getTask s s.active with cntRoundRobin := (getTask s s.active).timeRoundRobin })
        id).prioClass < P
      rw [taskAt_set_prioClass s.tasks s.active
        { getTask s s.active with cntRoundRobin := (getTask s s.active).timeRoundRobin } rfl id]
      exact hI.classLt id hid
    · intro c id hid
      exact hI.dueIdLt c id (hmemset c id hid)
    · intro c id hid
      show (taskAt (s.tasks.set s.active
        { getTask s s.active with cntRoundRobin := (getTask s s.active).timeRoundRobin })
        id).prioClass = c
      rw [taskAt_set_prioClass s.tasks s.active
        { getTask s s.active with cntRoundRobin := (getTask s s.active).timeRoundRobin } rfl id]
      exact hI.dueClassEq c id (hmemset c id hid)
    · exact hI.suspIdLt
    · exact hI.suspNodup
    · exact hflat.nodup_iff.2 hI.dueNodup
    · intro id hid hmem
      exact hI.suspDueDisj id hid (hflat.mem_iff.1 hmem)
    · exact hI.activeLe
    · exact hI.activeNotSusp
    · show taskAt (s.tasks.set s.active _) n = idleTask
      rw [taskAt_set_cases, if_neg hne]
      exact hI.idleRec
  · refine ⟨(getTask s s.active).prioClass, hcP, ?_⟩
    show (s.due.set (getTask s s.active).prioClass _).getD (getTask s s.active).prioClass [] ≠ []
    rw [getD_set_self s.due _ _ hclen]
    simp

theorem inv_cfta_after_rr {P n : Nat} {s1 : KState} (h1 : Inv P n s1) :
    Inv P n (checkForTaskActivation (roundRobinPhase s1).1 (roundRobinPhase s1).2).2 := by
  cases hfl : (roundRobinPhase s1).1 with
  | false =>
    have h2 := roundRobin_inv_false h1 hfl
    refine inv_checkForTaskActivation h2.toInvCore (fun _ => h2.idleNoDue)
      (fun _ => h2.activeHead) (fun _ => h2.activeTop) ?_
    intro hcon
    exact absurd hcon (by simp)
  | true =>
    obtain ⟨hc, hex⟩ := roundRobin_true h1 hfl
    refine inv_checkForTaskActivation hc ?_ ?_ ?_ (fun _ => hex) <;>
      exact fun hcon => absurd hcon (by simp)

/-- The tick handler preserves the kernel invariant. -/
theorem inv_onTimerTic {P n : Nat} {s : KState} (hI : Inv P n s) :
    Inv P n (onTimerTic s).2 := by
  unfold onTimerTic
  exact inv_cfta_after_rr
    (inv_updEach_susp hI _ (tickTimersTask_prioClass ((s.time + 1) % 2 ^ timeW))
      ((s.time + 1) % 2 ^ timeW))

/-- The event setter preserves the kernel invariant. -/
theorem inv_setEvent {P n : Nat} (vec : Nat) {s : KState} (hI : Inv P n s) :
    Inv P n (setEvent vec s).2 := by
  unfold setEvent
  have h1 : Inv P n
      { s with tasks := updEach (postUpd (vec &&& (0xFFFF ^^^ TIMER_EVT_MASK))) s.tasks s.suspended } :=
    inv_updEach_susp hI _ (postUpd_prioClass _) s.time
  exact inv_checkForTaskActivation h1.toInvCore (fun _ => h1.idleNoDue)
    (fun _ => h1.activeHead) (fun _ => h1.activeTop) (fun hcon => absurd hcon (by simp))

/-- The suspend logic preserves the kernel invariant, provided the caller is
not the idle task. -/
theorem inv_waitForEvent {P n : Nat} {s : KState} (mask : Nat) (all : Bool) (timeout : Nat)
    (hne : s.active ≠ n) (hI : Inv P n s) :
    Inv P n (waitForEvent n mask all timeout s) := by
  have hlt : s.active < n := by
    have := hI.activeLe
    omega
  have hcP : (getTask s s.active).prioClass < P := hI.classLt s.active hI.activeLe
  have hclen : (getTask s s.active).prioClass < s.due.length := by
    rw [hI.dueLen]
    exact hcP
  have hhd := hI.activeHead hlt
  have hdl : dueAt s (getTask s s.active).prioClass =
      s.active :: (dueAt s (getTask s s.active).prioClass).tail := head?_decomp hhd
  have hstore := storeResumeCondition_prioClass timeW s.time (getTask s s.active) mask all timeout
  have hclstasks : ∀ j, (taskAt (s.tasks.set s.active
      (storeResumeCondition timeW s.time (getTask s s.active) mask all timeout)) j).prioClass =
      (taskAt s.tasks j).prioClass :=
    taskAt_set_prioClass s.tasks s.active _ hstore
  have hflat1 : (s.due.set (getTask s s.active).prioClass
      ((s.due.getD (getTask s s.active).prioClass []).tail)).flatten =
      (s.due.take (getTask s s.active).prioClass).flatten ++
        (s.due.getD (getTask s s.active).prioClass []).tail ++
        (s.due.drop ((getTask s s.active).prioClass + 1)).flatten :=
    flatten_set_decomp s.due _ hclen
  have hflats : s.due.flatten =
      (s.due.take (getTask s s.active).prioClass).flatten ++
        s.due.getD (getTask s s.active).prioClass [] ++
        (s.due.drop ((getTask s s.active).prioClass + 1)).flatten :=
    flatten_getD_decomp s.due hclen
  have htailsub : List.Sublist (s.due.getD (getTask s s.active).prioClass []).tail
      (s.due.getD (getTask s s.active).prioClass []) := by
    conv_rhs => rw [show s.due.getD (getTask s s.active).prioClass [] =
      s.active :: (s.due.getD (getTask s s.active).prioClass []).tail from hdl]
    exact List.sublist_cons_self _ _
  have hsub : List.Sublist (s.due.set (getTask s s.active).prioClass
      ((s.due.getD (getTask s s.active).prioClass []).tail)).flatten s.due.flatten := by
    rw [hflat1, hflats]
    exact ((List.Sublist.refl _).append htailsub).append (List.Sublist.refl _)
  have hnodup1 : (s.due.set (getTask s s.active).prioClass
      ((s.due.getD (getTask s s.active).prioClass []).tail)).flatten.Nodup :=
    List.Nodup.sublist hsub hI.dueNodup
  have hactnot1 : s.active ∉ (s.due.set (getTask s s.active).prioClass
      ((s.due.getD (getTask s s.active).prioClass []).tail)).flatten := by
    have hdl' : s.due.getD (getTask s s.active).prioClass [] =
        s.active :: (s.due.getD (getTask s s.active).prioClass []).tail := hdl
    have hnd : s.due.flatten.Nodup := hI.dueNodup
    rw [hflats, hdl'] at hnd
    rcases List.nodup_append.1 hnd with ⟨hAX, hB, hdisj1⟩
    rcases List.nodup_append.1 hAX with ⟨hA, hX, hdisj2⟩
    rcases List.nodup_cons.1 hX with ⟨hat, _⟩
    have hnotA : s.active ∉ (s.due.take (getTask s s.active).prioClass).flatten :=
      fun hmem => hdisj2 hmem (by simp)
    have hnotB : s.active ∉ (s.due.drop ((getTask s s.active).prioClass + 1)).flatten :=
      hdisj1 (List.mem_append.2 (Or.inr (by simp)))
    intro hmem
    rw [hflat1] at hmem
    rcases List.mem_append.1 hmem with h | h
    · rcases List.mem_append.1 h with h' | h'
      · exact hnotA h'
      · exact hat h'
    · exact hnotB h
  have hmemset : ∀ c j, j ∈ (s.due.set (getTask s s.active).prioClass
      ((s.due.getD (getTask s s.active).prioClass []).tail)).getD c [] → j ∈ dueAt s c := by
    intro c j hj
    by_cases hc : (getTask s s.active).prioClass = c
    · rw [← hc] at hj ⊢
      rw [getD_set_self s.due _ _ hclen] at hj
      rw [show dueAt s (getTask s s.active).prioClass =
        s.active :: (dueAt s (getTask s s.active).prioClass).tail from hdl]
      exact List.mem_cons_of_mem _ hj
    · rw [getD_set_ne s.due _ _ hc] at hj
      exact hj
  have hsusp1nd : (s.suspended ++ [s.active]).Nodup := by
    refine List.nodup_append.2 ⟨hI.suspNodup, List.nodup_singleton _, ?_⟩
    intro a ha
    simp only [List.mem_singleton]
    intro he
    subst he
    exact hI.activeNotSusp ha
  have hsusp1lt : ∀ j, j ∈ s.suspended ++ [s.active] → j < n := by
    intro j hj
    rcases List.mem_append.1 hj with h | h
    · exact hI.suspIdLt j h
    · simp only [List.mem_singleton] at h
      subst h
      exact hlt
  have hsusp1disj : ∀ j, j ∈ s.suspended ++ [s.active] →
      j ∉ (s.due.set (getTask s s.active).prioClass
        ((s.due.getD (getTask s s.active).prioClass []).tail)).flatten := by
    intro j hj hmem
    rcases List.mem_append.1 hj with h | h
    · exact hI.suspDueDisj j h (hsub.subset hmem)
    · simp only [List.mem_singleton] at h
      subst h
      exact hactnot1 hmem
  unfold waitForEvent
  dsimp only
  cases hfd : findDueHead (s.due.set (getTask s s.active).prioClass
      ((s.due.getD (getTask s s.active).prioClass []).tail))
      (s.due.set (getTask s s.active).prioClass
      ((s.due.getD (getTask s s.active).prioClass []).tail)).length with
  | none =>
    have hempty := (findDueHead_none_iff _ _).1 hfd
    have hempty' : ∀ c, (s.due.set (getTask s s.active).prioClass
        ((s.due.getD (getTask s s.active).prioClass []).tail)).getD c [] = [] := by
      intro c
      by_cases hc : c < (s.due.set (getTask s s.active).prioClass
          ((s.due.getD (getTask s s.active).prioClass []).tail)).length
      · exact hempty c hc
      · exact getD_of_len_le _ _ (by omega)
    refine ⟨⟨?_, ?_, ?_, ?_, ?_, ?_, ?_, ?_, ?_, ?_, ?_, ?_⟩, ?_, ?_, ?_⟩
    · show (s.tasks.set s.active _).length = n + 1
      rw [List.length_set]
      exact hI.tasksLen
    · show (s.due.set _ _).length = P
      rw [List.length_set]
      exact hI.dueLen
    · intro id hid
      show (taskAt (s.tasks.set s.active _) id).prioClass < P
      rw [hclstasks id]
      exact hI.classLt id hid
    · intro c id hid
      dsimp only [dueAt] at hid
      rw [hempty' c] at hid
      simp at hid
    · intro c id hid
      dsimp only [dueAt] at hid
      rw [hempty' c] at hid
      simp at hid
    · exact hsusp1lt
    · exact hsusp1nd
    · exact hnodup1
    · exact hsusp1disj
    · exact le_refl n
    · intro hmem
      rcases List.mem_append.1 hmem with h | h
      · exact absurd (hI.suspIdLt n h) (by omega)
      · simp only [List.mem_singleton] at h
        exact hne h.symm
    · show taskAt (s.tasks.set s.active _) n = idleTask
      rw [taskAt_set_cases, if_neg (fun hcon => hne hcon.1)]
      exact hI.idleRec
    · intro _ c
      exact hempty' c
    · intro hcon
      dsimp only at hcon
      exact absurd hcon (by omega)
    · intro hcon
      dsimp only at hcon
      exact absurd hcon (by omega)
  | some id =>
    obtain ⟨cstar, hcstar, hhead, habove⟩ := findDueHead_some _ hfd
    have hidmem : id ∈ (s.due.set (getTask s s.active).prioClass
        ((s.due.getD (getTask s s.active).prioClass []).tail)).getD cstar [] :=
      mem_of_head?_eq_some hhead
    have hidmem0 : id ∈ dueAt s cstar := hmemset cstar id hidmem
    have hidlt : id < n := hI.dueIdLt cstar id hidmem0
    have hidcls : (taskAt s.tasks id).prioClass = cstar := hI.dueClassEq cstar id hidmem0
    have hidflat : id ∈ (s.due.set (getTask s s.active).prioClass
        ((s.due.getD (getTask s s.active).prioClass []).tail)).flatten :=
      mem_flatten_of_mem_getD hidmem
    refine ⟨⟨?_, ?_, ?_, ?_, ?_, ?_, ?_, ?_, ?_, ?_, ?_, ?_⟩, ?_, ?_, ?_⟩
    · show (s.tasks.set s.active _).length = n + 1
      rw [List.length_set]
      exact hI.tasksLen
    · show (s.due.set _ _).length = P
      rw [List.length_set]
      exact hI.dueLen
    · intro j hj
      show (taskAt (s.tasks.set s.active _) j).prioClass < P
      rw [hclstasks j]
      exact hI.classLt j hj
    · intro c j hj
      exact hI.dueIdLt c j (hmemset c j hj)
    · intro c j hj
      show (taskAt (s.tasks.set s.active _) j).prioClass = c
      rw [hclstasks j]
      exact hI.dueClassEq c j (hmemset c j hj)
    · exact hsusp1lt
    · exact hsusp1nd
    · exact hnodup1
    · exact hsusp1disj
    · show id ≤ n
      omega
    · intro hmem
      exact hsusp1disj id hmem hidflat
    · show taskAt (s.tasks.set s.active _) n = idleTask
      rw [taskAt_set_cases, if_neg (fun hcon => hne hcon.1)]
      exact hI.idleRec
    · intro hcon
      dsimp only at hcon
      exact absurd hcon (by omega)
    · intro _
      show ((s.due.set (getTask s s.active).prioClass
        ((s.due.getD (getTask s s.active).prioClass []).tail)).getD
        (taskAt (s.tasks.set s.active
          (storeResumeCondition timeW s.time (getTask s s.active) mask all timeout)) id).prioClass
        []).head? = some id
      rw [hclstasks id, hidcls]
      exact hhead
    · intro _ c hc
      show (s.due.set (getTask s s.active).prioClass
        ((s.due.getD (getTask s s.active).prioClass []).tail)).getD c [] = []
      have hc2 : cstar < c := by
        rw [← hidcls, ← hclstasks id]
        exact hc
      by_cases hcl : c < (s.due.set (getTask s s.active).prioClass
          ((s.due.getD (getTask s s.active).prioClass []).tail)).length
      · exact habove c hc2 hcl
      · exact getD_of_len_le _ _ (by omega)

/-- Every state reachable by the kernel operations from initialization
satisfies the kernel invariant. -/
theorem inv_reachable {P : Nat} {cfgs : List TaskCfg} {s : KState}
    (hw : WfCfg P cfgs) (h : Reachable P cfgs s) : Inv P cfgs.length s := by
  induction h with
  | init => exact inv_init hw
  | tick _ ih =>
    unfold tickISR
    dsimp only
    split
    · exact inv_pushRetCode (inv_onTimerTic ih)
    · exact inv_onTimerTic ih
  | post vec _ _ ih =>
    unfold setEventISR
    dsimp only
    split
    · exact inv_pushRetCode (inv_setEvent vec ih)
    · exact inv_setEvent vec ih
  | wait eventMask all timeout hact _ _ _ ih =>
    exact inv_pushRetCode (inv_waitForEvent eventMask all timeout hact ih)

/-! ## Claims -/

/-- Claim C1: the release test of the scan returns true iff
(waitForAnyEvent and postedEventVec != 0) or (not waitForAnyEvent and
(((postedEventVec XOR eventMask) AND NOT (ABS_TIMER|DELAY_TIMER)) == 0 or
(postedEventVec AND eventMask AND (ABS_TIMER|DELAY_TIMER)) != 0)); in
particular, in all mode a task whose mask contains a timer bit is released
as soon as that timer bit is posted, even if non-timer bits of the mask are
still missing. -/
theorem C1_release_test (t : Task) :
    (isReleased t = true ↔
      (t.waitForAnyEvent = true ∧ t.postedEventVec ≠ 0) ∨
      (t.waitForAnyEvent = false ∧
        (((t.postedEventVec ^^^ t.eventMask) &&&
            (0xFFFF ^^^ (RTOS_EVT_ABSOLUTE_TIMER ||| RTOS_EVT_DELAY_TIMER))) = 0 ∨
          t.postedEventVec &&& t.eventMask &&&
            (RTOS_EVT_ABSOLUTE_TIMER ||| RTOS_EVT_DELAY_TIMER) ≠ 0))) ∧
    (t.waitForAnyEvent = false →
      t.postedEventVec &&& t.eventMask &&&
        (RTOS_EVT_ABSOLUTE_TIMER ||| RTOS_EVT_DELAY_TIMER) ≠ 0 →
      isReleased t = true) := by
  have hmain : isReleased t = true ↔
      (t.waitForAnyEvent = true ∧ t.postedEventVec ≠ 0) ∨
      (t.waitForAnyEvent = false ∧
        (((t.postedEventVec ^^^ t.eventMask) &&&
            (0xFFFF ^^^ (RTOS_EVT_ABSOLUTE_TIMER ||| RTOS_EVT_DELAY_TIMER))) = 0 ∨
          t.postedEventVec &&& t.eventMask &&&
            (RTOS_EVT_ABSOLUTE_TIMER ||| RTOS_EVT_DELAY_TIMER) ≠ 0)) := by
    unfold isReleased TIMER_EVT_MASK
    cases hany : t.waitForAnyEvent <;>
      simp [hany, Bool.or_eq_true, Bool.and_eq_true, bne_iff_ne, beq_iff_eq]
  refine ⟨hmain, ?_⟩
  intro hall htimer
  exact hmain.2 (Or.inr ⟨hall, Or.inr htimer⟩)

/-- A concrete task used to witness C1: all mode, mask = DELAY_TIMER plus
application bit 0, only the timer bit posted. -/
def c1WitnessTask : Task :=
  { prioClass := 0, timeDueAt := 0, timeRoundRobin := 0, cntDelay := 0
  , cntRoundRobin := 0, postedEventVec := 0x8000, eventMask := 0x8001
  , waitForAnyEvent := false, cntOverrun := 0 }

/-- Witness for C1 at a concrete task: the task is released although the
non-timer bit 0 of its mask has not been posted. -/
theorem C1_release_test_witness :
    c1WitnessTask.waitForAnyEvent = false ∧
    c1WitnessTask.postedEventVec &&& c1WitnessTask.eventMask &&&
      (RTOS_EVT_ABSOLUTE_TIMER ||| RTOS_EVT_DELAY_TIMER) ≠ 0 ∧
    isReleased c1WitnessTask = true :=
  ⟨rfl, by decide,
    (C1_release_test c1WitnessTask).2 rfl (by decide)⟩

/-- Claim C3: with the absolute-timer bit in the mask, storeResumeCondition
advances timeDueAt by exactly timeout (cyclic add in w bits), and increments
the overrun counter (saturating below 255) iff the two's-complement reading
of (new timeDueAt - time) is non-positive, in which case timeDueAt is
additionally set to time + 1. -/
theorem C3_absTimer_overrun (w time : Nat) (t : Task) (mask : Nat) (all : Bool)
    (timeout : Nat) (hw : 0 < w) (habs : mask &&& RTOS_EVT_ABSOLUTE_TIMER ≠ 0) :
    ((storeResumeCondition w time t mask all timeout).timeDueAt =
      if toSigned w (cyclicSub w ((t.timeDueAt + timeout) % 2 ^ w) time) ≤ 0
      then (time + 1) % 2 ^ w
      else (t.timeDueAt + timeout) % 2 ^ w) ∧
    ((storeResumeCondition w time t mask all timeout).cntOverrun =
      if toSigned w (cyclicSub w ((t.timeDueAt + timeout) % 2 ^ w) time) ≤ 0
      then (if t.cntOverrun < 255 then t.cntOverrun + 1 else t.cntOverrun)
      else t.cntOverrun) := by
  have hpow : 0 < 2 ^ w := Nat.pos_pow_of_pos w (by omega)
  have hdlt : cyclicSub w ((t.timeDueAt + timeout) % 2 ^ w) time < 2 ^ w :=
    Nat.mod_lt _ hpow
  have hiff := toSigned_nonpos_iff w (cyclicSub w ((t.timeDueAt + timeout) % 2 ^ w) time)
    hw hdlt
  unfold storeResumeCondition
  simp only [if_pos habs]
  by_cases hcond : ((t.timeDueAt + timeout) % 2 ^ w + (2 ^ w - time % 2 ^ w)) % 2 ^ w = 0 ∨
      2 ^ (w - 1) ≤ ((t.timeDueAt + timeout) % 2 ^ w + (2 ^ w - time % 2 ^ w)) % 2 ^ w
  · rw [if_pos hcond, if_pos (hiff.2 hcond), if_pos (hiff.2 hcond)]
    exact ⟨rfl, rfl⟩
  · rw [if_neg hcond, if_neg (fun hx => hcond (hiff.1 hx)),
      if_neg (fun hx => hcond (hiff.1 hx))]
    exact ⟨rfl, rfl⟩

/-- A concrete task used to witness C3. -/
def c3WitnessTask : Task :=
  { prioClass := 0, timeDueAt := 10, timeRoundRobin := 0, cntDelay := 0
  , cntRoundRobin := 0, postedEventVec := 0, eventMask := 0
  , waitForAnyEvent := false, cntOverrun := 3 }

/-- Witness for C3 at w = 8, time = 200, timeDueAt = 10, timeout = 100: the
new due time 110 is 166 ticks "ago" as a signed distance, so the overrun
counter increments from 3 to 4 and the due time is recovered to 201. -/
theorem C3_absTimer_overrun_witness :
    (0 : Nat) < 8 ∧ ((0x4000 : Nat) &&& RTOS_EVT_ABSOLUTE_TIMER ≠ 0) ∧
    (storeResumeCondition 8 200 c3WitnessTask 0x4000 false 100).timeDueAt = 201 ∧
    (storeResumeCondition 8 200 c3WitnessTask 0x4000 false 100).cntOverrun = 4 := by
  refine ⟨by decide, by decide, ?_, ?_⟩
  · exact ((C3_absTimer_overrun 8 200 c3WitnessTask 0x4000 false 100 (by decide)
      (by decide)).1).trans (by decide)
  · exact ((C3_absTimer_overrun 8 200 c3WitnessTask 0x4000 false 100 (by decide)
      (by decide)).2).trans (by decide)

/-- Claim C6: without the absolute-timer bit, storeResumeCondition loads
cntDelay with timeout + 1, except when timeout + 1 wraps to zero in w bits,
in which case timeout is used unchanged; the loaded value is never zero, so
a timeout of zero still suspends for at least one tick. -/
theorem C6_delay_load (w time : Nat) (t : Task) (mask : Nat) (all : Bool)
    (timeout : Nat) (hw : 0 < w) (hto : timeout < 2 ^ w)
    (habs : mask &&& RTOS_EVT_ABSOLUTE_TIMER = 0) :
    ((storeResumeCondition w time t mask all timeout).cntDelay =
      if timeout + 1 = 2 ^ w then timeout else timeout + 1) ∧
    0 < (storeResumeCondition w time t mask all timeout).cntDelay := by
  have hne : ¬(mask &&& RTOS_EVT_ABSOLUTE_TIMER ≠ 0) := by simp [habs]
  have hle : timeout + 1 ≤ 2 ^ w := by omega
  have hw2 : 2 ≤ 2 ^ w := by
    calc 2 = 2 ^ 1 := rfl
    _ ≤ 2 ^ w := Nat.pow_le_pow_right (by omega) (by omega)
  unfold storeResumeCondition
  simp only [if_neg hne]
  by_cases hwrap : timeout + 1 = 2 ^ w
  · have hmod : (timeout + 1) % 2 ^ w = 0 := by
      rw [hwrap]
      exact Nat.mod_self _
    rw [if_pos hwrap]
    simp only [hmod]
    constructor
    · simp
    · show 0 < timeout
      omega
  · have hlt : timeout + 1 < 2 ^ w := by omega
    have hmod : (timeout + 1) % 2 ^ w = timeout + 1 := Nat.mod_eq_of_lt hlt
    rw [if_neg hwrap]
    simp only [hmod]
    constructor
    · simp
    · show 0 < timeout + 1
      omega

/-- Witness for C6 at w = 8, timeout = 0: cntDelay is loaded with 1. -/
theorem C6_delay_load_witness :
    (0 : Nat) < 8 ∧ (0 : Nat) < 2 ^ 8 ∧ ((0x8000 : Nat) &&& RTOS_EVT_ABSOLUTE_TIMER = 0) ∧
    (storeResumeCondition 8 77 c1WitnessTask 0x8000 true 0).cntDelay = 1 := by
  refine ⟨by decide, by decide, by decide, ?_⟩
  exact ((C6_delay_load 8 77 c1WitnessTask 0x8000 true 0 (by decide) (by decide)
    (by decide)).1).trans (by decide)

theorem land_assoc_timer_zero (x m : Nat) :
    x &&& (0xFFFF ^^^ TIMER_EVT_MASK) &&& m &&& TIMER_EVT_MASK = 0 := by
  have hc : (0xFFFF ^^^ TIMER_EVT_MASK) &&& TIMER_EVT_MASK = 0 := by decide
  refine Nat.eq_of_testBit_eq ?_
  intro i
  have hci := congrArg (fun z => Nat.testBit z i) hc
  simp only [Nat.testBit_land, Nat.zero_testBit] at hci ⊢
  cases hx : Nat.testBit x i <;>
    cases hcb : Nat.testBit (0xFFFF ^^^ TIMER_EVT_MASK) i <;>
    cases hm : Nat.testBit m i <;>
    cases ht : Nat.testBit TIMER_EVT_MASK i <;>
    simp_all

theorem lor_land_timer (p q : Nat) (hq : q &&& TIMER_EVT_MASK = 0) :
    (p ||| q) &&& TIMER_EVT_MASK = p &&& TIMER_EVT_MASK := by
  refine Nat.eq_of_testBit_eq ?_
  intro i
  have hqi := congrArg (fun z => Nat.testBit z i) hq
  simp only [Nat.testBit_land, Nat.testBit_lor, Nat.zero_testBit] at hqi ⊢
  cases hp : Nat.testBit p i <;>
    cases hqb : Nat.testBit q i <;>
    cases ht : Nat.testBit TIMER_EVT_MASK i <;>
    simp_all

theorem land_left_zero_of_land_zero (v c m : Nat) (h : m &&& v = 0) :
    v &&& c &&& m = 0 := by
  refine Nat.eq_of_testBit_eq ?_
  intro i
  have hi := congrArg (fun z => Nat.testBit z i) h
  simp only [Nat.testBit_land, Nat.zero_testBit] at hi ⊢
  cases hv : Nat.testBit v i <;>
    cases hcb : Nat.testBit c i <;>
    cases hm : Nat.testBit m i <;>
    simp_all

/-- Claim C5: setEvent clears the two timer bits from the posted vector
before distribution; every suspended task then receives
postedEventVec := postedEventVec OR (vec AND eventMask); a suspended task
whose mask shares no bit with vec is left entirely unchanged, tasks outside
the suspended array are untouched, no field other than postedEventVec is
modified by the posting loop, and in particular the loop never posts a
timer bit. -/
theorem C5_setEvent_posting (tasks : List Task) (susp : List Nat) (vec : Nat) (id : Nat)
    (hnd : susp.Nodup) (hlt : ∀ j ∈ susp, j < tasks.length) :
    (id ∈ susp →
      taskAt (postEvents (vec &&& (0xFFFF ^^^ TIMER_EVT_MASK)) tasks susp) id =
        { taskAt tasks id with
            postedEventVec := (taskAt tasks id).postedEventVec |||
              (vec &&& (0xFFFF ^^^ TIMER_EVT_MASK) &&& (taskAt tasks id).eventMask) }) ∧
    (id ∉ susp →
      taskAt (postEvents (vec &&& (0xFFFF ^^^ TIMER_EVT_MASK)) tasks susp) id =
        taskAt tasks id) ∧
    ((taskAt tasks id).eventMask &&& vec = 0 →
      taskAt (postEvents (vec &&& (0xFFFF ^^^ TIMER_EVT_MASK)) tasks susp) id =
        taskAt tasks id) ∧
    ((taskAt (postEvents (vec &&& (0xFFFF ^^^ TIMER_EVT_MASK)) tasks susp) id).postedEventVec
        &&& TIMER_EVT_MASK =
      (taskAt tasks id).postedEventVec &&& TIMER_EVT_MASK) := by
  have hat := updEach_at (postUpd (vec &&& (0xFFFF ^^^ TIMER_EVT_MASK))) tasks hnd hlt id
  have hpost : taskAt (postEvents (vec &&& (0xFFFF ^^^ TIMER_EVT_MASK)) tasks susp) id =
      if id ∈ susp
      then postUpd (vec &&& (0xFFFF ^^^ TIMER_EVT_MASK)) (taskAt tasks id)
      else taskAt tasks id := hat
  refine ⟨?_, ?_, ?_, ?_⟩
  · intro hmem
    rw [hpost, if_pos hmem]
    rfl
  · intro hmem
    rw [hpost, if_neg hmem]
  · intro hz
    rw [hpost]
    by_cases hmem : id ∈ susp
    · rw [if_pos hmem]
      have hz2 : vec &&& (0xFFFF ^^^ TIMER_EVT_MASK) &&& (taskAt tasks id).eventMask = 0 := by
        have hzv : (taskAt tasks id).eventMask &&& vec = 0 := hz
        refine Nat.eq_of_testBit_eq ?_
        intro i
        have hi := congrArg (fun z => Nat.testBit z i) hzv
        simp only [Nat.testBit_land, Nat.zero_testBit] at hi ⊢
        cases hv : Nat.testBit vec i <;>
          cases hcb : Nat.testBit (0xFFFF ^^^ TIMER_EVT_MASK) i <;>
          cases hm : Nat.testBit (taskAt tasks id).eventMask i <;>
          simp_all
      unfold postUpd
      rw [hz2, Nat.or_zero]
    · rw [if_neg hmem]
  · rw [hpost]
    by_cases hmem : id ∈ susp
    · rw [if_pos hmem]
      unfold postUpd
      exact lor_land_timer _ _ (land_assoc_timer_zero vec (taskAt tasks id).eventMask)
    · rw [if_neg hmem]

/-- A concrete suspended task used to witness C5, waiting on mask 0x0003. -/
def c5WitnessTask0 : Task :=
  { prioClass := 0, timeDueAt := 0, timeRoundRobin := 0, cntDelay := 0
  , cntRoundRobin := 0, postedEventVec := 0, eventMask := 3
  , waitForAnyEvent := true, cntOverrun := 0 }

/-- Witness for C5 on a two-task table: the posted vector 0xC001 loses its
timer bits, task 0 (mask 0x0003) receives bit 0 only, task 1 is not
suspended and keeps its descriptor. -/
theorem C5_setEvent_posting_witness :
    ([0] : List Nat).Nodup ∧
    (taskAt (postEvents (0xC001 &&& (0xFFFF ^^^ TIMER_EVT_MASK))
      [c5WitnessTask0, c1WitnessTask] [0]) 0).postedEventVec = 1 ∧
    taskAt (postEvents (0xC001 &&& (0xFFFF ^^^ TIMER_EVT_MASK))
      [c5WitnessTask0, c1WitnessTask] [0]) 1 = c1WitnessTask := by
  refine ⟨by decide, ?_, ?_⟩
  · have h := (C5_setEvent_posting [c5WitnessTask0, c1WitnessTask] [0] 0xC001 0
      (by decide) (by decide)).1 (by decide)
    rw [show taskAt (postEvents (0xC001 &&& (0xFFFF ^^^ TIMER_EVT_MASK))
      [c5WitnessTask0, c1WitnessTask] [0]) 0 = _ from h]
    decide
  · exact (C5_setEvent_posting [c5WitnessTask0, c1WitnessTask] [0] 0xC001 1
      (by decide) (by decide)).2.1 (by decide)

theorem cfta_suspended_eq {s : KState} (hint : Bool) (hnd : s.suspended.Nodup) :
    (checkForTaskActivation hint s).2.suspended =
      s.suspended.filter (fun j => !isReleased (taskAt s.tasks j)) := by
  rw [cfta_shape hint hnd]
  by_cases hb : (hint || !(relList s.tasks s.suspended).isEmpty) = true
  · rw [if_pos hb]
    cases hfd : findDueHead (dueAppend s.tasks s.due (relList s.tasks s.suspended))
        (dueAppend s.tasks s.due (relList s.tasks s.suspended)).length <;> rfl
  · rw [if_neg hb]

theorem cfta_tasks_eq {s : KState} (hint : Bool) (hnd : s.suspended.Nodup) :
    (checkForTaskActivation hint s).2.tasks =
      updEach releaseUpd s.tasks (relList s.tasks s.suspended) := by
  rw [cfta_shape hint hnd]
  by_cases hb : (hint || !(relList s.tasks s.suspended).isEmpty) = true
  · rw [if_pos hb]
    cases hfd : findDueHead (dueAppend s.tasks s.due (relList s.tasks s.suspended))
        (dueAppend s.tasks s.due (relList s.tasks s.suspended)).length <;> rfl
  · rw [if_neg hb]

/-- Claim C8: immediately after any run of checkForTaskActivation, no task
remaining in the suspended array satisfies the release test: every satisfied
task has been moved to the due list of its priority class and compacted out
of the suspended array. -/
theorem C8_scan_exhaustive (s : KState) (hint : Bool) (id : Nat)
    (hnd : s.suspended.Nodup)
    (hmem : id ∈ (checkForTaskActivation hint s).2.suspended) :
    isReleased (getTask (checkForTaskActivation hint s).2 id) = false := by
  rw [cfta_suspended_eq hint hnd] at hmem
  have h2 : isReleased (taskAt s.tasks id) = false := by
    have := (List.mem_filter.1 hmem).2
    simpa using this
  have hnot : id ∉ relList s.tasks s.suspended := by
    intro hx
    have := (List.mem_filter.1 hx).2
    rw [h2] at this
    simp at this
  show isReleased (taskAt (checkForTaskActivation hint s).2.tasks id) = false
  rw [cfta_tasks_eq hint hnd, updEach_at_of_not_mem _ _ hnot]
  exact h2

/-- A concrete state used to witness C8: task 0 is releasable (any mode,
posted bit set), task 1 is not; both are suspended. -/
def c8WitnessState : KState :=
  { time := 0
  , tasks := [{ prioClass := 0, timeDueAt := 0, timeRoundRobin := 0, cntDelay := 0
              , cntRoundRobin := 0, postedEventVec := 1, eventMask := 1
              , waitForAnyEvent := true, cntOverrun := 0 },
              { prioClass := 0, timeDueAt := 0, timeRoundRobin := 0, cntDelay := 0
              , cntRoundRobin := 0, postedEventVec := 0, eventMask := 2
              , waitForAnyEvent := true, cntOverrun := 0 }]
  , due := [[]]
  , suspended := [0, 1]
  , active := 2
  , suspendedFrom := 2 }

/-- Witness for C8: after the scan, task 1 is still suspended and its
release test fails. -/
theorem C8_scan_exhaustive_witness :
    c8WitnessState.suspended.Nodup ∧
    1 ∈ (checkForTaskActivation false c8WitnessState).2.suspended ∧
    isReleased (getTask (checkForTaskActivation false c8WitnessState).2 1) = false :=
  ⟨by decide, by decide,
    C8_scan_exhaustive c8WitnessState false 1 (by decide) (by decide)⟩

/-- Claim C4: under the precondition that the caller is the active, non-idle
task (stored at the head of the due list of its priority class and nowhere
else in the due lists), the suspend logic removes the caller from that head,
stores its resume condition, appends it to the suspended array, records it in
_pSuspendedTask, and activates the first entry of the highest non-empty
priority class, falling back to the idle task when every class is empty; the
resulting active task always differs from the caller. -/
theorem C4_wait_suspend (n : Nat) (s : KState) (mask : Nat) (all : Bool) (timeout : Nat)
    (rest : List Nat)
    (hne : s.active ≠ n)
    (hlen : s.active < s.tasks.length)
    (hdl : s.due.getD (getTask s s.active).prioClass [] = s.active :: rest)
    (honce : s.active ∉ rest)
    (hother : ∀ c, c ≠ (getTask s s.active).prioClass → s.active ∉ s.due.getD c []) :
    (waitForEvent n mask all timeout s).due.getD (getTask s s.active).prioClass [] = rest ∧
    (∀ c, c ≠ (getTask s s.active).prioClass →
      (waitForEvent n mask all timeout s).due.getD c [] = s.due.getD c []) ∧
    getTask (waitForEvent n mask all timeout s) s.active =
      storeResumeCondition timeW s.time (getTask s s.active) mask all timeout ∧
    (waitForEvent n mask all timeout s).suspended = s.suspended ++ [s.active] ∧
    (waitForEvent n mask all timeout s).suspendedFrom = s.active ∧
    (((waitForEvent n mask all timeout s).active = n ∧
        ∀ c, (waitForEvent n mask all timeout s).due.getD c [] = []) ∨
      (∃ c, (∀ c', c < c' → (waitForEvent n mask all timeout s).due.getD c' [] = []) ∧
        ((waitForEvent n mask all timeout s).due.getD c []).head? =
          some (waitForEvent n mask all timeout s).active)) ∧
    (waitForEvent n mask all timeout s).active ≠ s.active := by
  have hclen : (getTask s s.active).prioClass < s.due.length :=
    mem_getD_imp_lt (by rw [hdl]; exact List.mem_cons_self _ _)
  have htail : (s.due.getD (getTask s s.active).prioClass []).tail = rest := by
    rw [hdl]
    rfl
  have hdue1 : ∀ c, (s.due.set (getTask s s.active).prioClass
      ((s.due.getD (getTask s s.active).prioClass []).tail)).getD c [] =
      if c = (getTask s s.active).prioClass then rest else s.due.getD c [] := by
    intro c
    by_cases hc : c = (getTask s s.active).prioClass
    · rw [if_pos hc, hc, getD_set_self s.due _ _ hclen, htail]
    · rw [if_neg hc, getD_set_ne s.due _ _ (fun hx => hc hx.symm)]
  have hactnot : ∀ c, s.active ∉ (s.due.set (getTask s s.active).prioClass
      ((s.due.getD (getTask s s.active).prioClass []).tail)).getD c [] := by
    intro c
    rw [hdue1 c]
    by_cases hc : c = (getTask s s.active).prioClass
    · rw [if_pos hc]
      exact honce
    · rw [if_neg hc]
      exact hother c hc
  unfold waitForEvent
  dsimp only
  cases hfd : findDueHead (s.due.set (getTask s s.active).prioClass
      ((s.due.getD (getTask s s.active).prioClass []).tail))
      (s.due.set (getTask s s.active).prioClass
      ((s.due.getD (getTask s s.active).prioClass []).tail)).length with
  | none =>
    have hempty := (findDueHead_none_iff _ _).1 hfd
    have hempty' : ∀ c, (s.due.set (getTask s s.active).prioClass
        ((s.due.getD (getTask s s.active).prioClass []).tail)).getD c [] = [] := by
      intro c
      by_cases hc : c < (s.due.set (getTask s s.active).prioClass
          ((s.due.getD (getTask s s.active).prioClass []).tail)).length
      · exact hempty c hc
      · exact getD_of_len_le _ _ (by omega)
    refine ⟨?_, ?_, ?_, rfl, rfl, ?_, ?_⟩
    · have h1 := hdue1 (getTask s s.active).prioClass
      rw [if_pos rfl] at h1
      exact h1
    · intro c hc
      rw [hdue1 c, if_neg hc]
    · show taskAt (s.tasks.set s.active
        (storeResumeCondition timeW s.time (getTask s s.active) mask all timeout)) s.active =
        storeResumeCondition timeW s.time (getTask s s.active) mask all timeout
      unfold taskAt
      exact getD_set_self s.tasks _ _ hlen
    · exact Or.inl ⟨rfl, hempty'⟩
    · intro hx
      dsimp only at hx
      exact hne hx.symm
  | some id =>
    obtain ⟨cstar, hcstar, hhead, habove⟩ := findDueHead_some _ hfd
    have hidmem : id ∈ (s.due.set (getTask s s.active).prioClass
        ((s.due.getD (getTask s s.active).prioClass []).tail)).getD cstar [] :=
      mem_of_head?_eq_some hhead
    have hidne : id ≠ s.active := by
      intro he
      subst he
      exact hactnot cstar hidmem
    refine ⟨?_, ?_, ?_, rfl, rfl, ?_, hidne⟩
    · have := hdue1 (getTask s s.active).prioClass
      rw [if_pos rfl] at this
      exact this
    · intro c hc
      rw [hdue1 c, if_neg hc]
    · show taskAt (s.tasks.set s.active
        (storeResumeCondition timeW s.time (getTask s s.active) mask all timeout)) s.active =
        storeResumeCondition timeW s.time (getTask s s.active) mask all timeout
      unfold taskAt
      exact getD_set_self s.tasks _ _ hlen
    · refine Or.inr ⟨cstar, ?_, hhead⟩
      intro c' hc'
      by_cases hcl : c' < (s.due.set (getTask s s.active).prioClass
          ((s.due.getD (getTask s s.active).prioClass []).tail)).length
      · exact habove c' hc' hcl
      · exact getD_of_len_le _ _ (by omega)

/-- A concrete state used to witness C4: two tasks of class 0, task 0 active
at the head of the due list, the idle task has index 2. -/
def c4WitnessState : KState :=
  { time := 5
  , tasks := [c5WitnessTask0, c5WitnessTask0, idleTask]
  , due := [[0, 1]]
  , suspended := []
  , active := 0
  , suspendedFrom := 0 }

/-- Witness for C4: task 0 suspends waiting on the delay timer; task 1
becomes active, task 0 moves to the suspended array. -/
theorem C4_wait_suspend_witness :
    c4WitnessState.active ≠ 2 ∧
    (waitForEvent 2 0x8000 false 10 c4WitnessState).suspended = [0] ∧
    (waitForEvent 2 0x8000 false 10 c4WitnessState).active ≠ c4WitnessState.active := by
  have h := C4_wait_suspend 2 c4WitnessState 0x8000 false 10 [1]
    (by decide) (by decide) (by decide) (by decide)
    (by intro c hc; cases c with | zero => exact absurd rfl hc | succ m => simp [c4WitnessState])
  exact ⟨by decide, by
    have := h.2.2.2.1
    simpa using this, h.2.2.2.2.2.2⟩

theorem findDueHead_eq_some (due : List (List Nat)) {k c id : Nat} (hck : c < k)
    (hhead : (due.getD c []).head? = some id)
    (habove : ∀ c', c < c' → c' < k → due.getD c' [] = []) :
    findDueHead due k = some id := by
  induction k with
  | zero => omega
  | succ m ih =>
    rw [findDueHead]
    by_cases hcm : c = m
    · subst hcm
      rw [hhead]
    · have hm : due.getD m [] = [] := habove m (by omega) (by omega)
      rw [hm]
      show findDueHead due m = some id
      exact ih (by omega) (fun c' h1 h2 => habove c' h1 (by omega))

/-- Claim C9: with round-robin enabled, on a tick where the active task's
round-robin counter decrements to zero and the due list of its priority
class holds more than one entry (and no suspended task is released by this
tick's timer events), the counter is reloaded from the slice length, the due
list is rotated cyclically by one position (the active task moves to the
tail), and the subsequent activation scan makes the previous second entry,
the new head of that list, the active task. -/
theorem C9_roundRobin_rotation (s : KState) (b : Nat) (rest : List Nat)
    (hnd : s.suspended.Nodup)
    (hsusplen : ∀ id ∈ s.suspended, id < s.tasks.length)
    (hactlen : s.active < s.tasks.length)
    (hactns : s.active ∉ s.suspended)
    (hcnt : (getTask s s.active).cntRoundRobin = 1)
    (hdl : s.due.getD (getTask s s.active).prioClass [] = s.active :: b :: rest)
    (htop : ∀ c, (getTask s s.active).prioClass < c → s.due.getD c [] = [])
    (hnorel : ∀ id ∈ s.suspended,
      isReleased (tickTimersTask ((s.time + 1) % 2 ^ timeW) (taskAt s.tasks id)) = false) :
    (onTimerTic s).2.due.getD (getTask s s.active).prioClass [] =
      (b :: rest) ++ [s.active] ∧
    (getTask (onTimerTic s).2 s.active).cntRoundRobin =
      (getTask s s.active).timeRoundRobin ∧
    (onTimerTic s).2.active = b := by
  have hclen : (getTask s s.active).prioClass < s.due.length :=
    mem_getD_imp_lt (by rw [hdl]; exact List.mem_cons_self _ _)
  have htasks1at := updEach_at (tickTimersTask ((s.time + 1) % 2 ^ timeW)) s.tasks hnd hsusplen
  have hact1 : taskAt (updEach (tickTimersTask ((s.time + 1) % 2 ^ timeW)) s.tasks s.suspended)
      s.active = taskAt s.tasks s.active := by
    rw [htasks1at s.active, if_neg hactns]
  have hcnt' : (taskAt s.tasks s.active).cntRoundRobin = 1 := hcnt
  have hdl' : s.due.getD (taskAt s.tasks s.active).prioClass [] = s.active :: b :: rest := hdl
  have htop' : ∀ c, (taskAt s.tasks s.active).prioClass < c → s.due.getD c [] = [] := htop
  unfold onTimerTic
  dsimp only
  unfold roundRobinPhase
  dsimp only [getTask]
  rw [show tickTimers ((s.time + 1) % 2 ^ timeW) s.tasks s.suspended =
    updEach (tickTimersTask ((s.time + 1) % 2 ^ timeW)) s.tasks s.suspended from rfl]
  rw [hact1, hcnt']
  have hpos : (0 : Nat) < 1 := by omega
  rw [if_pos hpos]
  rw [if_pos (show (1 : Nat) - 1 = 0 from rfl)]
  rw [hdl']
  rw [if_pos (show 1 < (s.active :: b :: rest).length by simp)]
  dsimp only
  -- the rotation has happened; now the scan with the hint set
  have hnd2 : s.suspended.Nodup := hnd
  rw [cfta_shape true]
  dsimp only
  have hrel : relList ((updEach (tickTimersTask ((s.time + 1) % 2 ^ timeW)) s.tasks
      s.suspended).set s.active
      { taskAt s.tasks s.active with
          cntRoundRobin := (taskAt s.tasks s.active).timeRoundRobin }) s.suspended = [] := by
    refine List.filter_eq_nil_iff.2 ?_
    intro a ha
    have hane : s.active ≠ a := fun he => hactns (he ▸ ha)
    have h1 : taskAt ((updEach (tickTimersTask ((s.time + 1) % 2 ^ timeW)) s.tasks
        s.suspended).set s.active
        { taskAt s.tasks s.active with
            cntRoundRobin := (taskAt s.tasks s.active).timeRoundRobin }) a =
        tickTimersTask ((s.time + 1) % 2 ^ timeW) (taskAt s.tasks a) := by
      unfold taskAt
      rw [getD_set_ne _ _ _ hane]
      rw [show (updEach (tickTimersTask ((s.time + 1) % 2 ^ timeW)) s.tasks
        s.suspended).getD a default = taskAt (updEach (tickTimersTask
        ((s.time + 1) % 2 ^ timeW)) s.tasks s.suspended) a from rfl]
      rw [htasks1at a, if_pos ha]
      rfl
    rw [h1]
    simp [hnorel a ha]
  rw [hrel]
  have hclen' : (taskAt s.tasks s.active).prioClass < s.due.length := hclen
  have hdue2 : (s.due.set (taskAt s.tasks s.active).prioClass
      ((s.active :: b :: rest).tail ++ [s.active])).getD
      (taskAt s.tasks s.active).prioClass [] = b :: rest ++ [s.active] := by
    rw [getD_set_self s.due _ _ hclen']
    rfl
  have hfd : findDueHead (s.due.set (taskAt s.tasks s.active).prioClass
      ((s.active :: b :: rest).tail ++ [s.active]))
      (s.due.set (taskAt s.tasks s.active).prioClass
        ((s.active :: b :: rest).tail ++ [s.active])).length = some b := by
    refine findDueHead_eq_some _ (c := (taskAt s.tasks s.active).prioClass)
      (by rw [List.length_set]; exact hclen') (by rw [hdue2]; rfl) ?_
    intro c' h1 h2
    rw [getD_set_ne s.due _ _ (by omega)]
    exact htop' c' h1
  rw [show dueAppend ((updEach (tickTimersTask ((s.time + 1) % 2 ^ timeW)) s.tasks
      s.suspended).set s.active
      { taskAt s.tasks s.active with
          cntRoundRobin := (taskAt s.tasks s.active).timeRoundRobin })
      (s.due.set (taskAt s.tasks s.active).prioClass
        ((s.active :: b :: rest).tail ++ [s.active])) [] =
      s.due.set (taskAt s.tasks s.active).prioClass
        ((s.active :: b :: rest).tail ++ [s.active]) from rfl]
  rw [if_pos (show (true || !([] : List Nat).isEmpty) = true from rfl)]
  rw [hfd]
  dsimp only
  refine ⟨?_, ?_, rfl⟩
  · exact hdue2
  · show (taskAt (updEach releaseUpd ((updEach (tickTimersTask ((s.time + 1) % 2 ^ timeW))
      s.tasks s.suspended).set s.active
      { taskAt s.tasks s.active with
          cntRoundRobin := (taskAt s.tasks s.active).timeRoundRobin }) []) s.active).cntRoundRobin =
      (getTask s s.active).timeRoundRobin
    rw [show updEach releaseUpd ((updEach (tickTimersTask ((s.time + 1) % 2 ^ timeW))
      s.tasks s.suspended).set s.active
      { taskAt s.tasks s.active with
          cntRoundRobin := (taskAt s.tasks s.active).timeRoundRobin }) [] =
      (updEach (tickTimersTask ((s.time + 1) % 2 ^ timeW)) s.tasks s.suspended).set s.active
      { taskAt s.tasks s.active with
          cntRoundRobin := (taskAt s.tasks s.active).timeRoundRobin } from rfl]
    unfold taskAt
    rw [getD_set_self _ _ _ (by rw [updEach_len]; exact hactlen)]
    rfl
  exact hnd2

/-- Witness state for C9: two tasks of priority class 0, the active task 0 at
the head of the due list with an expiring round-robin counter and reload
value 2. -/
def c9WitnessState : KState :=
  { time := 0
  , tasks := [{ prioClass := 0, timeDueAt := 0, timeRoundRobin := 2, cntDelay := 0
              , cntRoundRobin := 1, postedEventVec := 0, eventMask := 0
              , waitForAnyEvent := false, cntOverrun := 0 },
              { prioClass := 0, timeDueAt := 0, timeRoundRobin := 0, cntDelay := 0
              , cntRoundRobin := 0, postedEventVec := 0, eventMask := 0
              , waitForAnyEvent := false, cntOverrun := 0 }]
  , due := [[0, 1]]
  , suspended := []
  , active := 0
  , suspendedFrom := 0 }

/-- Witness for C9: on the tick, the class-0 due list rotates from [0, 1] to
[1, 0], the round-robin counter reloads to 2, and task 1 becomes active. -/
theorem C9_roundRobin_rotation_witness :
    (onTimerTic c9WitnessState).2.due.getD 0 [] = [1, 0] ∧
    (getTask (onTimerTic c9WitnessState).2 0).cntRoundRobin = 2 ∧
    (onTimerTic c9WitnessState).2.active = 1 := by
  have h := C9_roundRobin_rotation c9WitnessState 1 []
    (by decide)
    (by intro id hmem; exact absurd hmem (List.not_mem_nil id))
    (by decide)
    (by decide)
    (by decide)
    (by decide)
    (by
      intro c hc
      cases c with
      | zero => exact absurd hc (by decide)
      | succ m => simp [c9WitnessState, List.getD])
    (by intro id hmem; exact absurd hmem (List.not_mem_nil id))
  exact ⟨h.1, h.2.1, h.2.2⟩

/-- Task configuration used for C2: a single class-0 task whose start
condition is a pure delay-timer wait with timeout 0, so it becomes due on
the very first system-timer tick. -/
def c2Cfg : TaskCfg :=
  { prioClass := 0, timeRoundRobin := 0, startEventMask := RTOS_EVT_DELAY_TIMER
  , startByAllEvents := false, startTimeout := 0 }

/-- C2: counterexample. After the first system-timer tick from
initialization, task 0 is the active task and its id still sits in the
ready (due) list of its priority class: the kernel keeps the active task at
the head of its class's due list rather than removing it. -/
theorem C2_active_in_ready :
    Reachable 1 [c2Cfg] (tickISR (initState 1 [c2Cfg])) ∧
    (tickISR (initState 1 [c2Cfg])).active = 0 ∧
    (tickISR (initState 1 [c2Cfg])).active ∈ dueAt (tickISR (initState 1 [c2Cfg])) 0 :=
  ⟨Reachable.tick Reachable.init, by decide, by decide⟩

/-- C2 (amended): in every reachable state the active task is never in the
suspended array; when the idle task is active every ready list is empty, and
when a real task is active it is exactly the HEAD of its priority class's
ready list (so it does occupy a ready slot, contrary to the original claim). -/
theorem C2_active_partition {P : Nat} {cfgs : List TaskCfg} {s : KState}
    (hw : WfCfg P cfgs) (h : Reachable P cfgs s) :
    s.active ∉ s.suspended ∧
    (s.active = cfgs.length → ∀ c, dueAt s c = []) ∧
    (s.active < cfgs.length →
      (dueAt s (getTask s s.active).prioClass).head? = some s.active ∧
      ∀ c, (getTask s s.active).prioClass < c → dueAt s c = []) := by
  have hI := inv_reachable hw h
  exact ⟨hI.activeNotSusp, hI.idleNoDue, fun hlt => ⟨hI.activeHead hlt, hI.activeTop hlt⟩⟩

/-- Witness for the amended C2 at a concrete reachable state: after the
first tick, the active task 0 is not suspended, heads its ready list, and
the ready list of the next-higher class (here beyond the configured range)
is empty. -/
theorem C2_active_partition_witness :
    (tickISR (initState 1 [c2Cfg])).active ∉ (tickISR (initState 1 [c2Cfg])).suspended ∧
    (dueAt (tickISR (initState 1 [c2Cfg]))
        (getTask (tickISR (initState 1 [c2Cfg]))
          (tickISR (initState 1 [c2Cfg])).active).prioClass).head? =
      some (tickISR (initState 1 [c2Cfg])).active ∧
    dueAt (tickISR (initState 1 [c2Cfg])) 1 = [] := by
  have h := @C2_active_partition 1 [c2Cfg] (tickISR (initState 1 [c2Cfg]))
    ⟨by decide, by decide⟩ (Reachable.tick Reachable.init)
  exact ⟨h.1, (h.2.2 (by decide)).1, (h.2.2 (by decide)).2 1 (by decide)⟩

/-- C7: priority respect. In every reachable state, if some task idH is in
the ready list of class cH and some task idL is in the ready list of a
strictly lower class cL, then the active task is never idL: the scheduler
always selects from the highest non-empty priority class. -/
theorem C7_priority_respect {P : Nat} {cfgs : List TaskCfg} {s : KState}
    (hw : WfCfg P cfgs) (h : Reachable P cfgs s)
    {cH cL idH idL : Nat} (hlt : cL < cH)
    (hH : idH ∈ dueAt s cH) (hL : idL ∈ dueAt s cL) :
    s.active ≠ idL := by
  have hI := inv_reachable hw h
  intro he
  have hLlt : idL < cfgs.length := hI.dueIdLt cL idL hL
  have hLcls : (taskAt s.tasks idL).prioClass = cL := hI.dueClassEq cL idL hL
  have hactlt : s.active < cfgs.length := by omega
  have hempty : dueAt s cH = [] := by
    refine hI.activeTop hactlt cH ?_
    show (taskAt s.tasks s.active).prioClass < cH
    rw [he, hLcls]
    exact hlt
  rw [hempty] at hH
  exact absurd hH (List.not_mem_nil idH)

/-- Configurations for the C7 witness: task 0 in priority class 1, task 1 in
class 0, both started by an expired delay timer. -/
def c7Cfg0 : TaskCfg :=
  { prioClass := 1, timeRoundRobin := 0, startEventMask := RTOS_EVT_DELAY_TIMER
  , startByAllEvents := false, startTimeout := 0 }

def c7Cfg1 : TaskCfg :=
  { prioClass := 0, timeRoundRobin := 0, startEventMask := RTOS_EVT_DELAY_TIMER
  , startByAllEvents := false, startTimeout := 0 }

/-- Witness for C7: after the first tick both tasks are ready, task 0 in
class 1 and task 1 in class 0, and the class-0 task 1 is not active. -/
theorem C7_priority_respect_witness :
    0 ∈ dueAt (tickISR (initState 2 [c7Cfg0, c7Cfg1])) 1 ∧
    1 ∈ dueAt (tickISR (initState 2 [c7Cfg0, c7Cfg1])) 0 ∧
    (tickISR (initState 2 [c7Cfg0, c7Cfg1])).active ≠ 1 := by
  refine ⟨by decide, by decide, ?_⟩
  exact @C7_priority_respect 2 [c7Cfg0, c7Cfg1] (tickISR (initState 2 [c7Cfg0, c7Cfg1]))
    ⟨by decide, by decide⟩ (Reachable.tick Reachable.init) 1 0 0 1 (by decide)
    (by decide) (by decide)

theorem roundRobinPhase_active (s : KState) : (roundRobinPhase s).2.active = s.active := by
  unfold roundRobinPhase
  dsimp only
  split
  · split
    · split
      · rfl
      · rfl
    · rfl
  · rfl

/-- The activation scan's boolean result is true exactly when the active-task
choice changed, provided that a non-empty priority class exists whenever the
hint flag is set (which rules out the scan's latent none-branch). -/
theorem cfta_flag_iff {P n : Nat} {s : KState} {hint : Bool}
    (hC : InvCore P n s)
    (hNE : hint = true → ∃ c, c < P ∧ dueAt s c ≠ []) :
    ((checkForTaskActivation hint s).1 = true ↔
      (checkForTaskActivation hint s).2.active ≠ s.active) := by
  have hnd := hC.suspNodup
  have hrelmem : ∀ id ∈ relList s.tasks s.suspended,
      id ∈ s.suspended ∧ isReleased (taskAt s.tasks id) = true := by
    intro id hid
    exact ⟨(List.mem_filter.1 hid).1, by simpa using (List.mem_filter.1 hid).2⟩
  have hrellt : ∀ id ∈ relList s.tasks s.suspended, id < n :=
    fun id hid => hC.suspIdLt id (hrelmem id hid).1
  have hrelcls : ∀ id ∈ relList s.tasks s.suspended,
      (taskAt s.tasks id).prioClass < s.due.length := by
    intro id hid
    rw [hC.dueLen]
    exact hC.classLt id (le_of_lt (hrellt id hid))
  have hgetD' : ∀ c, (dueAppend s.tasks s.due (relList s.tasks s.suspended)).getD c [] =
      dueAt s c ++ (relList s.tasks s.suspended).filter
        (fun j => (taskAt s.tasks j).prioClass == c) :=
    fun c => dueAppend_getD s.tasks hrelcls c
  have hlen' : (dueAppend s.tasks s.due (relList s.tasks s.suspended)).length = P := by
    rw [dueAppend_len, hC.dueLen]
  rw [cfta_shape hint hnd]
  by_cases hb : (hint || !(relList s.tasks s.suspended).isEmpty) = true
  · rw [if_pos hb]
    cases hfd : findDueHead (dueAppend s.tasks s.due (relList s.tasks s.suspended))
        (dueAppend s.tasks s.due (relList s.tasks s.suspended)).length with
    | none =>
      exfalso
      have hempty := (findDueHead_none_iff _ _).1 hfd
      cases hrel : relList s.tasks s.suspended with
      | cons id0 r0 =>
        have hid0 : id0 ∈ relList s.tasks s.suspended := by rw [hrel]; simp
        have hc0 : (taskAt s.tasks id0).prioClass < s.due.length := hrelcls id0 hid0
        have hne : id0 ∈ (dueAppend s.tasks s.due (relList s.tasks s.suspended)).getD
            (taskAt s.tasks id0).prioClass [] := by
          rw [hgetD']
          refine List.mem_append.2 (Or.inr ?_)
          refine List.mem_filter.2 ⟨hid0, by simp⟩
        have := hempty (taskAt s.tasks id0).prioClass (by rw [dueAppend_len]; exact hc0)
        rw [this] at hne
        simp at hne
      | nil =>
        have hhint : hint = true := by
          rcases Bool.or_eq_true_iff.1 hb with h | h
          · exact h
          · rw [hrel] at h
            simp at h
        obtain ⟨c, hcP, hcne⟩ := hNE hhint
        have := hempty c (by rw [hlen']; exact hcP)
        rw [hrel] at this
        have hdue0 : dueAppend s.tasks s.due ([] : List Nat) = s.due := rfl
        rw [hdue0] at this
        exact hcne this
    | some id =>
      dsimp only
      show decide (id ≠ s.active) = true ↔ id ≠ s.active
      constructor
      · exact of_decide_eq_true
      · exact fun hne => decide_eq_true hne
  · rw [if_neg hb]
    dsimp only
    constructor
    · intro hcon
      exact absurd hcon (by simp)
    · intro hne
      exact absurd rfl hne

/-- After the tick's round-robin phase, the activation scan reports true
exactly when the overall active task changed. -/
theorem cfta_after_rr_iff {P n : Nat} {s1 : KState} (h1 : Inv P n s1) :
    ((checkForTaskActivation (roundRobinPhase s1).1 (roundRobinPhase s1).2).1 = true ↔
      (checkForTaskActivation (roundRobinPhase s1).1 (roundRobinPhase s1).2).2.active ≠
        s1.active) := by
  cases hfl : (roundRobinPhase s1).1 with
  | false =>
    have h2 := roundRobin_inv_false h1 hfl
    rw [← roundRobinPhase_active s1]
    exact cfta_flag_iff h2.toInvCore (fun hcon => absurd hcon (by simp))
  | true =>
    obtain ⟨hc, hex⟩ := roundRobin_true h1 hfl
    rw [← roundRobinPhase_active s1]
    exact cfta_flag_iff hc (fun _ => hex)

/-- C10: in every reachable state, the activation scan run by the tick
handler, and the one run by the event setter for any vector, returns true if
and only if the active-task choice after the call differs from the one
before; in particular a false result means the active task is unchanged, so
the ISRs switch stacks exactly when the active task actually changed. -/
theorem C10_switch_iff {P : Nat} {cfgs : List TaskCfg} {s : KState}
    (hw : WfCfg P cfgs) (h : Reachable P cfgs s) :
    ((onTimerTic s).1 = true ↔ (onTimerTic s).2.active ≠ s.active) ∧
    ∀ vec, ((setEvent vec s).1 = true ↔ (setEvent vec s).2.active ≠ s.active) := by
  have hI := inv_reachable hw h
  refine ⟨?_, ?_⟩
  · have hs1 := inv_updEach_susp hI (tickTimersTask ((s.time + 1) % 2 ^ timeW))
      (tickTimersTask_prioClass ((s.time + 1) % 2 ^ timeW)) ((s.time + 1) % 2 ^ timeW)
    exact cfta_after_rr_iff hs1
  · intro vec
    have hs2 := inv_updEach_susp hI (postUpd (vec &&& (0xFFFF ^^^ TIMER_EVT_MASK)))
      (postUpd_prioClass _) s.time
    exact cfta_flag_iff hs2.toInvCore (fun hcon => absurd hcon (by simp))

/-- Task configuration used for the C10 witness. -/
def c10Cfg : TaskCfg :=
  { prioClass := 0, timeRoundRobin := 0, startEventMask := RTOS_EVT_DELAY_TIMER
  , startByAllEvents := false, startTimeout := 0 }

/-- Witness for C10 at the initial state of a one-task application: the
equivalence holds for the tick handler and for posting the vector 3. -/
theorem C10_switch_iff_witness :
    ((onTimerTic (initState 1 [c10Cfg])).1 = true ↔
      (onTimerTic (initState 1 [c10Cfg])).2.active ≠ (initState 1 [c10Cfg]).active) ∧
    ((setEvent 3 (initState 1 [c10Cfg])).1 = true ↔
      (setEvent 3 (initState 1 [c10Cfg])).2.active ≠ (initState 1 [c10Cfg]).active) := by
  have h := @C10_switch_iff 1 [c10Cfg] (initState 1 [c10Cfg])
    ⟨by decide, by decide⟩ Reachable.init
  exact ⟨h.1, h.2 3⟩

end RTuinOS
